import Mathlib

/-!
# Password lock: receiver, transmitter and GPIO registry

A shallow embedding of `rx_password.c`, `tx_password.c` and `password.c`.

Conventions of the embedding
* a C `char` / `unsigned char` is a `Nat` below 256, a C string is the list of
  bytes in front of the first NUL byte;
* global variables of a program become the fields of a state record, a function
  that changes them maps a state to a state;
* `printf` output is kept as a list of events, so that what was evaluated can be
  observed;
* values the program obtains from its environment (the clock, a `read`, the
  kernel allocator, gpiolib) are arguments;
* a `time_t` is an integer without bound: the values are clock readings and
  clock readings plus 30. An `int` counter is an integer, and the one operation
  on it that can overflow, `fail_count++`, wraps.
-/

/-! ## Receiver: `rx_password.c` -/

namespace Rx

def MAX_FAIL : Int := 5
def LOCK_TIME_SEC : Int := 30
def PASSWORD_LEN : Nat := 4
def MAX_BITS : Nat := PASSWORD_LEN * 8

/-- Largest value of a C `int` on the target. -/
def INT_MAX : Int := 2147483647
/-- Smallest value of a C `int` on the target. -/
def INT_MIN : Int := -2147483648

/-- The statement `x++` on an `int`: two's complement wrap at `INT_MAX`
(the C standard leaves that one case undefined). -/
def int_incr (x : Int) : Int := if x = INT_MAX then INT_MIN else x + 1

/-- The array `correct_pw[] = "1234"`, terminating NUL included. -/
def correct_pw : List Nat := [49, 50, 51, 52, 0]

/-- The C string held in a buffer: the bytes in front of the first NUL. -/
def c_str (buf : List Nat) : List Nat := buf.takeWhile (fun c => c != 0)

/-- Truth of `strcmp(a, b) == 0`. -/
def strcmp_eq (a b : List Nat) : Bool := c_str a == c_str b

/-- The globals of the receiver. `bit_index` is the write cursor into `bits`
(an `int` that only ever holds 0..32). -/
structure RxState where
  bits : List Nat
  bit_index : Nat
  fail_count : Int
  lock_until : Int
  unlocked : Int
  synced : Int
  sync_buf : List Nat
deriving DecidableEq, Repr

/-- What the receiver prints. -/
inductive RxEvent where
  /-- `Received PW: %s` -/
  | received (recv : List Nat)
  /-- `[UNLOCKED]` -/
  | unlocked
  /-- `[LOCKED] %d failed attempts. Wait %d sec.` -/
  | locked (fails : Int)
  /-- `[DENIED] Failed attempts: %d` -/
  | denied (fails : Int)
  /-- `[SYNC] Start pattern detected. Receiving password...` -/
  | sync
  /-- `RX bit %d: %d` -/
  | rx_bit (idx : Nat) (bit : Nat)
deriving DecidableEq, Repr

/-- `bits_to_char`: eight array cells, most significant first, into one `char`. -/
def bits_to_char (bits : List Nat) : Nat :=
  (List.range 8).foldl (fun c i => ((c <<< 1) ||| (bits.getD i 0 &&& 1)) % 256) 0

/-- The local buffer `recv[16]` of `check_password` after the decoding loop
`for (i = 0; i < MAX_BITS; i += 8) recv[i / 8] = bits_to_char(&bits[i])`
and the assignment `recv[PASSWORD_LEN] = 0`. -/
def recv_buf (bits : List Nat) : List Nat :=
  (((List.range MAX_BITS).filter (fun i => i % 8 == 0)).foldl
    (fun r i => r.set (i / 8) (bits_to_char (bits.drop i))) (List.replicate 16 0)).set PASSWORD_LEN 0

/-- `memset(bits, 0, sizeof(bits))`. -/
def bits_zero : List Nat := List.replicate MAX_BITS 0

/-- `memset(sync_buf, 0, sizeof(sync_buf))`. -/
def sync_zero : List Nat := List.replicate 8 0

/-- `check_password`; `t` is the value of `time(NULL)` read in the lock branch. -/
def check_password (t : Int) (s : RxState) : RxState × List RxEvent :=
  let recv := recv_buf s.bits
  let r : RxState × List RxEvent :=
    if strcmp_eq recv correct_pw then
      ({ s with unlocked := 1, fail_count := 0 }, [.received (c_str recv), .unlocked])
    else
      let fc := int_incr s.fail_count
      if fc ≥ MAX_FAIL then
        ({ s with fail_count := fc, lock_until := t + LOCK_TIME_SEC },
          [.received (c_str recv), .locked fc])
      else
        ({ s with fail_count := fc }, [.received (c_str recv), .denied fc])
  ({ r.1 with bit_index := 0, bits := bits_zero, synced := 0, sync_buf := sync_zero }, r.2)

/-- What one delivery of SIGIO finds in its environment. -/
structure Notif where
  /-- `time(NULL)` at the entry of the handler -/
  now : Int
  /-- the byte `read(fd_data, buf, 1)` stored; `none` when the call returned `<= 0` -/
  rd : Option Nat
  /-- `time(NULL)` as read inside `check_password` -/
  now_check : Int
deriving DecidableEq, Repr

/-- The shift `for (i = 0; i < 7; ++i) sync_buf[i] = sync_buf[i+1]; sync_buf[7] = bit`. -/
def shift_in (sync_buf : List Nat) (bit : Nat) : List Nat :=
  ((List.range 7).foldl (fun sb i => sb.set i (sb.getD (i + 1) 0)) sync_buf).set 7 bit

/-- The loop `pattern = (pattern << 1) | sync_buf[i]` on an `unsigned char`. -/
def sync_pattern (sync_buf : List Nat) : Nat :=
  (List.range 8).foldl (fun p i => ((p <<< 1) ||| sync_buf.getD i 0) % 256) 0

/-- The sampled bit `(buf[0] == '1') ? 1 : 0`. -/
def sample_bit (c : Nat) : Nat := if c = 49 then 1 else 0

/-- `sigio_handler`. -/
def sigio_handler (n : Notif) (s : RxState) : RxState × List RxEvent :=
  if n.now < s.lock_until ∨ s.unlocked ≠ 0 then
    ({ s with bit_index := 0, bits := bits_zero, synced := 0, sync_buf := sync_zero }, [])
  else
    match n.rd with
    | none => (s, [])
    | some c =>
      let bit : Nat := sample_bit c
      if s.synced = 0 then
        let sb := shift_in s.sync_buf bit
        if sync_pattern sb = 0xAA then
          ({ s with sync_buf := sb, synced := 1, bit_index := 0, bits := bits_zero }, [.sync])
        else
          ({ s with sync_buf := sb }, [])
      else
        let s1 : RxState := { s with bits := s.bits.set s.bit_index bit, bit_index := s.bit_index + 1 }
        if s1.bit_index ≥ MAX_BITS then
          let r := check_password n.now_check s1
          (r.1, .rx_bit s.bit_index bit :: r.2)
        else
          (s1, [.rx_bit s.bit_index bit])

/-- The receiver state after a sequence of notifications. -/
def rx_run : RxState → List Notif → RxState
  | s, [] => s
  | s, n :: ns => rx_run (sigio_handler n s).1 ns

/-- What each notification of a sequence printed, one entry per notification. -/
def rx_trace : RxState → List Notif → List (List RxEvent)
  | _, [] => []
  | s, n :: ns => (sigio_handler n s).2 :: rx_trace (sigio_handler n s).1 ns

/-- The guard `while (!unlocked)` of the wait loop in `main` is false: the loop is left. -/
def wait_loop_exits (s : RxState) : Prop := s.unlocked ≠ 0

instance (s : RxState) : Decidable (wait_loop_exits s) := by
  unfold wait_loop_exits; infer_instance

/-- The outcome of an evaluation, read off what it printed. -/
inductive Outcome where
  | accept
  | deny
  | lock
deriving DecidableEq, Repr

/-- Classification of the events of one `check_password` call. -/
def outcome_of : List RxEvent → Option Outcome
  | [] => none
  | .unlocked :: _ => some .accept
  | .denied _ :: _ => some .deny
  | .locked _ :: _ => some .lock
  | _ :: es => outcome_of es

/-- The state a receiver has when nothing of a frame or of a sync match is held. -/
def fresh (s : RxState) : Prop :=
  s.synced = 0 ∧ s.bit_index = 0 ∧ s.bits = bits_zero ∧ s.sync_buf = sync_zero

/-- The four characters a frame decodes to. -/
def decoded (bits : List Nat) : List Nat := (recv_buf bits).take PASSWORD_LEN

/-- The four characters of the configured secret. -/
def secret : List Nat := correct_pw.take PASSWORD_LEN

/-- An event is the line `Received PW: ...`, which `check_password` prints
once per call. -/
def is_received : RxEvent → Bool
  | .received _ => true
  | _ => false

/-- The bits a sequence of notifications delivers, oldest first. -/
def bits_of (ns : List Notif) : List Nat :=
  ns.filterMap (fun n => n.rd.map sample_bit)

/-- The 8 most recent bits of a sequence, oldest first, padded with zeros on
the old side. -/
def window (bs : List Nat) : List Nat :=
  (List.replicate 8 0 ++ bs).drop bs.length

/-- The bits of the sentinel 0xAA, most significant first. -/
def sentinel : List Nat := [1, 0, 1, 0, 1, 0, 1, 0]

end Rx

/-! ## Transmitter: `tx_password.c` -/

namespace Tx

def LOCK_DURATION : Int := 30
def MAX_FAIL : Int := 5

/-- One `write` of the transmitter on one of its two lines. -/
inductive Wire where
  /-- `write(fd_data, val, 1)` with `val` the text "1" (`v = 1`) or "0" (`v = 0`) -/
  | data (v : Nat)
  /-- `write(fd_clk, val, 1)` -/
  | clk (v : Nat)
deriving DecidableEq, Repr

/-- `send_bit`: the data line is driven, then the clock line is pulsed high and low. -/
def send_bit (bit : Nat) : List Wire :=
  [.data (if bit ≠ 0 then 1 else 0), .clk 1, .clk 0]

/-- The writes of a loop `for (b = 7; b >= 0; --b) send_bit((ch >> b) & 1)`. -/
def send_byte (ch : Nat) : List Wire :=
  ((List.range 8).reverse.map (fun b => send_bit ((ch >>> b) &&& 1))).flatten

/-- `send_start_sequence`. -/
def send_start_sequence : List Wire :=
  let start_byte : Nat := 0xAA
  ((List.range 8).reverse.map (fun i => send_bit ((start_byte >>> i) &&& 1))).flatten

/-- The loop `for (i = 0; i < 4; ++i)` of `main` over `to_send`. -/
def send_chars (to_send : List Nat) : List Wire :=
  ((List.range 4).map (fun i => send_byte (to_send.getD i 0))).flatten

/-- The locals `fail_count` and `lock_until` of `main`. -/
structure TxState where
  fail_count : Int
  lock_until : Int
deriving DecidableEq, Repr

/-- What one pass through the body of `while (1)` does. -/
structure TxIter where
  /-- the locals at the end of the pass -/
  state : TxState
  /-- the array `to_send`, when the pass got as far as filling it -/
  to_send : Option (List Nat)
  /-- the writes on the two lines, in order -/
  wire : List Wire
  /-- the pass ended in `break` -/
  terminated : Bool
  /-- the pass printed `[CORRECT] Password sent. Exiting.` -/
  correct : Bool
deriving DecidableEq, Repr

/-- The array `input` after `input[strcspn(input, "\n")] = 0`. -/
def strip_newline (input : List Nat) : List Nat :=
  (Rx.c_str input).takeWhile (fun c => c != 10)

/-- `strspn(input, "0123456789")`. -/
def strspn_digits (input : List Nat) : Nat :=
  ((Rx.c_str input).takeWhile (fun c => decide (48 ≤ c ∧ c ≤ 57))).length

/-- `strlen`. -/
def strlen (input : List Nat) : Nat := (Rx.c_str input).length

/-- The text "exit". -/
def str_exit : List Nat := [101, 120, 105, 116, 0]
/-- The text "0000". -/
def str_0000 : List Nat := [48, 48, 48, 48, 0]
/-- The text "1234". -/
def str_1234 : List Nat := [49, 50, 51, 52, 0]

/-- One pass through the body of `while (1)` in `main`.
`now` is `time(NULL)` at the top, `line` what `fgets` left in `input`
(`none` when it returned NULL), `now_lock` the `time(NULL)` read when locking.
The characters which the `getchar` loop in front of the prompt discards are
not part of the pass. -/
def tx_iteration (now : Int) (line : Option (List Nat)) (now_lock : Int) (s : TxState) : TxIter :=
  if now < s.lock_until then
    { state := s, to_send := none, wire := [], terminated := false, correct := false }
  else
    match line with
    | none => { state := s, to_send := none, wire := [], terminated := false, correct := false }
    | some raw =>
      let input := strip_newline raw
      if Rx.strcmp_eq input str_exit then
        { state := s, to_send := none, wire := [], terminated := true, correct := false }
      else
        let invalid : Bool := decide (strlen input ≠ 4 ∨ strspn_digits input ≠ 4)
        let to_send : List Nat := if invalid then str_0000 else Rx.c_str input ++ [0]
        let fc1 : Int := if invalid then Rx.int_incr s.fail_count else s.fail_count
        let wire := send_start_sequence ++ send_chars to_send
        if Rx.strcmp_eq to_send str_1234 then
          { state := { s with fail_count := fc1 }, to_send := some to_send, wire := wire,
            terminated := true, correct := true }
        else
          let fc2 : Int := if !Rx.strcmp_eq to_send str_0000 then Rx.int_incr fc1 else fc1
          let lu : Int := if fc2 ≥ MAX_FAIL then now_lock + LOCK_DURATION else s.lock_until
          { state := { fail_count := fc2, lock_until := lu }, to_send := some to_send, wire := wire,
            terminated := false, correct := false }

/-- The two lines between transmitter and receiver: the data line holds the
level last written, and a write of 1 on a low clock line is a rising edge, at
which the receiver is notified and reads the byte the data line shows
(the character 1 or 0). The result lists those bytes, one per rising edge. -/
def sampled : Nat → Nat → List Wire → List Nat
  | _, _, [] => []
  | _, c, .data v :: ws => sampled v c ws
  | d, c, .clk v :: ws =>
    if c = 0 ∧ v ≠ 0 then (if d ≠ 0 then 49 else 48) :: sampled d v ws
    else sampled d v ws

/-- The bits of a byte, most significant first. -/
def byte_bits (ch : Nat) : List Nat :=
  (List.range 8).reverse.map (fun b => (ch >>> b) &&& 1)

/-- The 40 bits of a frame: the sentinel 0xAA, then four characters. -/
def frame_bits (cred : List Nat) : List Nat :=
  byte_bits 0xAA ++ ((List.range 4).map (fun i => byte_bits (cred.getD i 0))).flatten

/-- The notifications a receiver gets for a list of sampled bytes; `times`
gives the two clock readings of each. -/
def notifs (samples : List Nat) (times : List (Int × Int)) : List Rx.Notif :=
  List.zipWith (fun c t => { now := t.1, rd := some c, now_check := t.2 }) samples times

/-- The notifications of one frame carrying `cred`, all at time `t`, from a
transmitter that starts with both lines low. -/
def frame_at (cred : List Nat) (t : Int) : List Rx.Notif :=
  notifs (sampled 0 0 (send_start_sequence ++ send_chars cred)) (List.replicate 40 (t, t))

end Tx

/-! ## GPIO registry: `password.c` -/

namespace Driver

def MAX_GPIO : Nat := 10
def GPIOCHIP_BASE : Int := 512

def EPERM : Int := 1
def ENOENT : Int := 2
def EIO : Int := 5
def ENOMEM : Int := 12
def EFAULT : Int := 14
def EBUSY : Int := 16
def EEXIST : Int := 17
def ENODEV : Int := 19
def EINVAL : Int := 22
def ENOTTY : Int := 25

/-- The functions of Linux gpiolib that the driver calls, over a hardware
state `HW`. They are not part of the repository and are taken as given;
a line descriptor is the kernel number of the line. -/
structure GpioLib (HW : Type) where
  /-- `gpio_to_desc`, `none` for a NULL result -/
  gpio_to_desc : HW → Int → Option Int
  gpiod_direction_input : HW → Int → HW
  gpiod_direction_output : HW → Int → Int → HW
  gpiod_set_value : HW → Int → Int → HW
  gpiod_get_value : HW → Int → Int
  /-- `gpiod_get_direction`: non-zero for an input, 0 for an output -/
  gpiod_get_direction : HW → Int → Int
  gpiod_to_irq : HW → Int → Int

/-- `struct gpio_entry`. `addr` is the address `kzalloc` returned for the
entry: it is what pointers to the entry (a table slot, `private_data` of an
open file, the `dev_id` of an interrupt registration) hold. `async_queue` lists
the files subscribed by `fasync`. -/
structure gpio_entry where
  addr : Nat
  bcm_num : Int
  desc : Int
  dev : Nat
  irq_num : Int
  irq_enabled : Bool
  async_queue : List Nat
deriving DecidableEq, Repr

/-- The state of the module and of the kernel services it uses. -/
structure Kernel (HW : Type) where
  /-- `gpio_table[MAX_GPIO]`; `none` is a NULL slot -/
  gpio_table : List (Option gpio_entry)
  /-- the registrations made by `request_irq` and not yet undone by `free_irq`,
  each the interrupt number and the `dev_id` pointer -/
  irq_actions : List (Int × Nat)
  /-- the device nodes made by `device_create`: minor number and the number in the name -/
  devices : List (Nat × Int)
  hw : HW

/-- The table when the module is loaded: every slot NULL. -/
def init_table : List (Option gpio_entry) := List.replicate MAX_GPIO none

/-- The test `gpio_table[i] && gpio_table[i]->bcm_num == bcm`. -/
def slot_has (tbl : List (Option gpio_entry)) (bcm : Int) (i : Nat) : Bool :=
  match tbl.getD i none with
  | some e => e.bcm_num == bcm
  | none => false

/-- `find_gpio_index`. -/
def find_gpio_index (tbl : List (Option gpio_entry)) (bcm : Int) : Int :=
  match (List.range MAX_GPIO).find? (slot_has tbl bcm) with
  | some i => (i : Int)
  | none => -1

/-- The value of `i` after `for (i = 0; i < MAX_GPIO; i++) if (!gpio_table[i]) break;`. -/
def first_free (tbl : List (Option gpio_entry)) : Nat :=
  ((List.range MAX_GPIO).find? (fun i => (tbl.getD i none).isNone)).getD MAX_GPIO

/-- What a call of `export_store` gets from the kernel besides gpiolib. -/
structure ExportEnv where
  /-- the number `kstrtoint` parsed from the text written, `none` when it fails -/
  kstrtoint : Option Int
  /-- the address `kzalloc` returns, `none` for NULL -/
  kzalloc : Option Nat
  /-- the device `device_create` returns, or the value of `PTR_ERR` -/
  device_create : Except Int Nat
deriving Repr

/-- `export_store`: the value returned (`.error r` for a negative return
value `r`, `.ok count` for `count`) and the state afterwards. -/
def export_store {HW : Type} (G : GpioLib HW) (env : ExportEnv) (count : Nat) (k : Kernel HW) :
    Except Int Nat × Kernel HW :=
  match env.kstrtoint with
  | none => (.error (- EINVAL), k)
  | some bcm =>
    if find_gpio_index k.gpio_table bcm ≥ 0 then (.error (- EEXIST), k)
    else
      let i := first_free k.gpio_table
      if i = MAX_GPIO then (.error (- ENOMEM), k)
      else
        match env.kzalloc with
        | none => (.error (- ENOMEM), k)
        | some addr =>
          let kernel_gpio := GPIOCHIP_BASE + bcm
          match G.gpio_to_desc k.hw kernel_gpio with
          | none => (.error (- EINVAL), k)
          | some desc =>
            let hw1 := G.gpiod_direction_input k.hw desc
            match env.device_create with
            | .error err => (.error err, { k with hw := hw1 })
            | .ok dev =>
              let entry : gpio_entry :=
                { addr := addr, bcm_num := bcm, desc := desc, dev := dev, irq_num := 0,
                  irq_enabled := false, async_queue := [] }
              (.ok count,
                { k with hw := hw1, devices := (i, bcm) :: k.devices,
                         gpio_table := k.gpio_table.set i (some entry) })

/-- `unexport_store`; `parsed` is what `kstrtoint` made of the text written. -/
def unexport_store {HW : Type} (parsed : Option Int) (count : Nat) (k : Kernel HW) :
    Except Int Nat × Kernel HW :=
  match parsed with
  | none => (.error (- EINVAL), k)
  | some bcm =>
    let idx := find_gpio_index k.gpio_table bcm
    if idx < 0 then (.error (- ENOENT), k)
    else
      (.ok count,
        { k with devices := k.devices.filter (fun d => d.1 != idx.toNat),
                 gpio_table := k.gpio_table.set idx.toNat none })

/-- The entry a pointer refers to, with its slot; `none` once the entry was freed. -/
def entry_at (tbl : List (Option gpio_entry)) (p : Nat) : Option (Nat × gpio_entry) :=
  match (List.range MAX_GPIO).find? (fun i =>
      match tbl.getD i none with
      | some e => e.addr == p
      | none => false) with
  | some i => (tbl.getD i none).map (fun e => (i, e))
  | none => none

/-- `gpio_fops_open`: the pointer stored in `private_data`, or the error returned. -/
def gpio_fops_open {HW : Type} (k : Kernel HW) (minor : Nat) : Except Int Nat :=
  if minor ≥ MAX_GPIO then .error (- ENODEV)
  else
    match k.gpio_table.getD minor none with
    | none => .error (- ENODEV)
    | some e => .ok e.addr

/-- The commands of `unlocked_ioctl`. -/
inductive Cmd where
  | GPIO_IOCTL_ENABLE_IRQ
  | GPIO_IOCTL_DISABLE_IRQ
  | other (n : Nat)
deriving DecidableEq, Repr

/-- `free_irq(irq, dev_id)`. -/
def free_irq (acts : List (Int × Nat)) (irq : Int) (dev_id : Nat) : List (Int × Nat) :=
  acts.filter (fun a => !(a.1 == irq && a.2 == dev_id))

/-- `gpio_fops_ioctl` on a file whose `private_data` is `pd`; `request_ok` tells
whether `request_irq` returns 0. The result is `none` when `pd` points to a
freed entry. -/
def gpio_fops_ioctl {HW : Type} (G : GpioLib HW) (pd : Nat) (cmd : Cmd) (request_ok : Bool)
    (k : Kernel HW) : Option (Int × Kernel HW) :=
  match entry_at k.gpio_table pd with
  | none => none
  | some (slot, entry) =>
    match cmd with
    | .GPIO_IOCTL_ENABLE_IRQ =>
      if entry.irq_enabled then some (- EBUSY, k)
      else
        let irq := G.gpiod_to_irq k.hw entry.desc
        if irq < 0 then some (- EINVAL, k)
        else if !request_ok then some (- EIO, k)
        else
          some (0, { k with irq_actions := (irq, entry.addr) :: k.irq_actions,
                            gpio_table := k.gpio_table.set slot
                              (some { entry with irq_num := irq, irq_enabled := true }) })
    | .GPIO_IOCTL_DISABLE_IRQ =>
      if !entry.irq_enabled then some (- EINVAL, k)
      else
        some (0, { k with irq_actions := free_irq k.irq_actions entry.irq_num entry.addr,
                          gpio_table := k.gpio_table.set slot
                            (some { entry with irq_enabled := false }) })
    | .other _ => some (- ENOTTY, k)

/-- `gpio_fops_fasync` (`fasync_helper`): file `filp` joins the queue when
`mode` is non-zero and leaves it otherwise. -/
def gpio_fops_fasync {HW : Type} (pd : Nat) (filp : Nat) (mode : Int) (k : Kernel HW) :
    Option (Int × Kernel HW) :=
  match entry_at k.gpio_table pd with
  | none => none
  | some (slot, entry) =>
    let q := entry.async_queue.filter (fun f => f != filp)
    let entry1 : gpio_entry := { entry with async_queue := if mode ≠ 0 then filp :: q else q }
    some (0, { k with gpio_table := k.gpio_table.set slot (some entry1) })

/-- `gpio_fops_release`. -/
def gpio_fops_release {HW : Type} (pd : Nat) (filp : Nat) (k : Kernel HW) :
    Option (Int × Kernel HW) :=
  match entry_at k.gpio_table pd with
  | none => none
  | some (slot, entry) =>
    let acts := if entry.irq_enabled then free_irq k.irq_actions entry.irq_num entry.addr
                else k.irq_actions
    some (0, { k with irq_actions := acts,
                      gpio_table := k.gpio_table.set slot
                        (some { entry with irq_enabled := false,
                                           async_queue := entry.async_queue.filter (fun f => f != filp) }) })

/-- `gpio_irq_handler` run for a registration with `dev_id`: the files that get
SIGIO, or `none` when `dev_id` points to a freed entry. -/
def gpio_irq_handler {HW : Type} (k : Kernel HW) (dev_id : Nat) : Option (List Nat) :=
  (entry_at k.gpio_table dev_id).map (fun p => p.2.async_queue)

/-- `gpio_fops_read`: the return value and the byte copied to the user;
`copy_ok` tells whether `copy_to_user` returns 0. -/
def gpio_fops_read {HW : Type} (G : GpioLib HW) (entry : gpio_entry) (copy_ok : Bool) (hw : HW) :
    Int × Option Nat :=
  let val : Nat := if G.gpiod_get_value hw entry.desc ≠ 0 then 49 else 48
  if !copy_ok then (- EFAULT, none) else (1, some val)

/-- `sysfs_streq` of the kernel: equality of two strings up to one trailing newline. -/
def sysfs_streq (s1 s2 : List Nat) : Bool :=
  let a := Rx.c_str s1
  let b := Rx.c_str s2
  a == b || a ++ [10] == b || a == b ++ [10]

/-- `gpio_fops_write` of `len = buf.length` bytes: the return value and the
hardware state; `copy_ok` tells whether `copy_from_user` returns 0. -/
def gpio_fops_write {HW : Type} (G : GpioLib HW) (entry : gpio_entry) (buf : List Nat)
    (copy_ok : Bool) (hw : HW) : Int × HW :=
  let len := buf.length
  if len ≥ 8 then (- EINVAL, hw)
  else if !copy_ok then (- EFAULT, hw)
  else
    let kbuf := buf ++ [0]
    if sysfs_streq kbuf [49, 0] then (len, G.gpiod_set_value hw entry.desc 1)
    else if sysfs_streq kbuf [48, 0] then (len, G.gpiod_set_value hw entry.desc 0)
    else if sysfs_streq kbuf [105, 110, 0] then (len, G.gpiod_direction_input hw entry.desc)
    else if sysfs_streq kbuf [111, 117, 116, 0] then (len, G.gpiod_direction_output hw entry.desc 0)
    else (- EINVAL, hw)

/-- `value_store`, the write side of the sysfs attribute `value`. -/
def value_store {HW : Type} (G : GpioLib HW) (entry : gpio_entry) (buf : List Nat) (count : Nat)
    (hw : HW) : Int × HW :=
  if G.gpiod_get_direction hw entry.desc ≠ 0 then (- EPERM, hw)
  else if buf.getD 0 0 = 49 then (count, G.gpiod_set_value hw entry.desc 1)
  else if buf.getD 0 0 = 48 then (count, G.gpiod_set_value hw entry.desc 0)
  else (- EINVAL, hw)

/-- `direction_store`, the write side of the sysfs attribute `direction`. -/
def direction_store {HW : Type} (G : GpioLib HW) (entry : gpio_entry) (buf : List Nat) (count : Nat)
    (hw : HW) : Int × HW :=
  if sysfs_streq buf [105, 110, 0] then (count, G.gpiod_direction_input hw entry.desc)
  else if sysfs_streq buf [111, 117, 116, 0] then (count, G.gpiod_direction_output hw entry.desc 0)
  else (- EINVAL, hw)

/-- Invariant of the table: it has `MAX_GPIO` slots and no two of them hold
the same line number. -/
def table_wf (tbl : List (Option gpio_entry)) : Prop :=
  tbl.length = MAX_GPIO ∧
  ∀ i j (e1 e2 : gpio_entry), tbl.getD i none = some e1 → tbl.getD j none = some e2 →
    e1.bcm_num = e2.bcm_num → i = j

/-- A run of `export_store` calls, one per request, with the results in order. -/
def export_seq {HW : Type} (G : GpioLib HW) :
    Kernel HW → List (ExportEnv × Nat) → List (Except Int Nat) × Kernel HW
  | k, [] => ([], k)
  | k, (env, count) :: rest =>
    let r := export_store G env count k
    let rs := export_seq G r.2 rest
    (r.1 :: rs.1, rs.2)

/-- The environment of an `export_store` call lets it succeed: the text parses
to `id`, memory and a device are available, and gpiolib knows the line. -/
def env_succeeds {HW : Type} (G : GpioLib HW) (env : ExportEnv) (id : Int) : Prop :=
  env.kstrtoint = some id ∧ env.kzalloc.isSome = true ∧
  (∃ dev, env.device_create = .ok dev) ∧
  ∀ hw, (G.gpio_to_desc hw (GPIOCHIP_BASE + id)).isSome = true

/-- One line of the hardware model below. -/
structure Line where
  /-- the line is configured as an input -/
  is_input : Bool
  /-- the level the output driver is set to -/
  out : Int
  /-- the level the outside world puts on the line when it is an input -/
  ext : Int
deriving DecidableEq, Repr

/-- A plain gpiolib over a chip of 54 lines numbered from `GPIOCHIP_BASE`,
used to run the driver on concrete inputs: setting a value loads the output
driver, and the level read is that of the driver on an output and the outside
level on an input. The interrupt of line `g` has number `g`. -/
def simple_lib : GpioLib (Int → Line) where
  gpio_to_desc := fun _ g => if GPIOCHIP_BASE ≤ g ∧ g < GPIOCHIP_BASE + 54 then some g else none
  gpiod_direction_input := fun hw d => fun g => if g = d then { (hw g) with is_input := true } else hw g
  gpiod_direction_output := fun hw d v =>
    fun g => if g = d then { (hw g) with is_input := false, out := if v ≠ 0 then 1 else 0 } else hw g
  gpiod_set_value := fun hw d v =>
    fun g => if g = d then { (hw g) with out := if v ≠ 0 then 1 else 0 } else hw g
  gpiod_get_value := fun hw d => if (hw d).is_input then (hw d).ext else (hw d).out
  gpiod_get_direction := fun hw d => if (hw d).is_input then 1 else 0
  gpiod_to_irq := fun _ d => d

/-- Hardware on which every line is an input at level 0. -/
def idle_lines : Int → Line := fun _ => { is_input := true, out := 0, ext := 0 }

/-- The state right after the module is loaded, on hardware `hw`. -/
def init_kernel {HW : Type} (hw : HW) : Kernel HW :=
  { gpio_table := init_table, irq_actions := [], devices := [], hw := hw }

/-- Line 17 exported on the freshly loaded module, idle hardware. -/
def exported_17 : Kernel (Int → Line) :=
  (export_store simple_lib ⟨some 17, some 4096, .ok 0⟩ 3 (init_kernel idle_lines)).2

/-- Line 19 exported on the freshly loaded module, opened (the file gets the
entry at address 4096 as `private_data`) and its interrupt enabled by `ioctl`. -/
def armed_19 : Kernel (Int → Line) :=
  let k1 := (export_store simple_lib ⟨some 19, some 4096, .ok 0⟩ 3 (init_kernel idle_lines)).2
  match gpio_fops_ioctl simple_lib 4096 .GPIO_IOCTL_ENABLE_IRQ true k1 with
  | some r => r.2
  | none => k1

end Driver

/-! ## Theorems -/

namespace Rx

theorem rx_run_append (s : RxState) (a b : List Notif) :
    rx_run s (a ++ b) = rx_run (rx_run s a) b := by
  induction a generalizing s with
  | nil => rfl
  | cons n a ih => simp [rx_run, ih]

theorem rx_trace_append (s : RxState) (a b : List Notif) :
    rx_trace s (a ++ b) = rx_trace s a ++ rx_trace (rx_run s a) b := by
  induction a generalizing s with
  | nil => rfl
  | cons n a ih => simp [rx_run, rx_trace, ih]

theorem length_eq_eight {α : Type} (l : List α) (h : l.length = 8) :
    ∃ a b c d e f g i, l = [a, b, c, d, e, f, g, i] := by
  match l, h with
  | [a, b, c, d, e, f, g, i], _ => exact ⟨a, b, c, d, e, f, g, i, rfl⟩

theorem shift_in_eq (w : List Nat) (b : Nat) (h : w.length = 8) :
    shift_in w b = w.drop 1 ++ [b] := by
  obtain ⟨a1, a2, a3, a4, a5, a6, a7, a8, rfl⟩ := length_eq_eight w h
  rfl

theorem window_length (bs : List Nat) : (window bs).length = 8 := by
  simp [window]
  omega

theorem window_snoc (bs : List Nat) (b : Nat) :
    window (bs ++ [b]) = (window bs).drop 1 ++ [b] := by
  unfold window
  rw [List.drop_drop, ← List.append_assoc, List.length_append, List.length_singleton,
    List.drop_append_of_le_length (by simp), Nat.add_comm]

theorem window_bit (bs : List Nat) (h : ∀ b ∈ bs, b ≤ 1) : ∀ b ∈ window bs, b ≤ 1 := by
  intro b hb
  unfold window at hb
  have hb2 := List.mem_of_mem_drop hb
  rcases List.mem_append.1 hb2 with h1 | h1
  · have := List.eq_of_mem_replicate h1
    omega
  · exact h b h1

set_option maxRecDepth 100000 in
theorem sync_pattern_bits :
    ∀ a < 2, ∀ b < 2, ∀ c < 2, ∀ d < 2, ∀ e < 2, ∀ f < 2, ∀ g < 2, ∀ i < 2,
      (sync_pattern [a, b, c, d, e, f, g, i] = 0xAA ↔ [a, b, c, d, e, f, g, i] = sentinel) := by
  intro a ha b hb c hc d hd e he f hf g hg i hi
  interval_cases a <;> interval_cases b <;> interval_cases c <;> interval_cases d <;>
    interval_cases e <;> interval_cases f <;> interval_cases g <;> interval_cases i <;> decide

theorem sync_pattern_iff (w : List Nat) (hl : w.length = 8) (hb : ∀ b ∈ w, b ≤ 1) :
    sync_pattern w = 0xAA ↔ w = sentinel := by
  obtain ⟨a1, a2, a3, a4, a5, a6, a7, a8, rfl⟩ := length_eq_eight w hl
  simp only [List.mem_cons, List.mem_singleton, forall_eq_or_imp, forall_eq, List.not_mem_nil,
    false_imp_iff, implies_true, and_true] at hb
  obtain ⟨h1, h2, h3, h4, h5, h6, h7, h8⟩ := hb
  exact sync_pattern_bits a1 (by omega) a2 (by omega) a3 (by omega) a4 (by omega) a5 (by omega)
    a6 (by omega) a7 (by omega) a8 (by omega)

theorem sample_bit_le (c : Nat) : sample_bit c ≤ 1 := by
  unfold sample_bit; split <;> omega

theorem bits_of_le (ns : List Notif) : ∀ b ∈ bits_of ns, b ≤ 1 := by
  intro b hb
  simp only [bits_of, List.mem_filterMap] at hb
  obtain ⟨n, _, hn⟩ := hb
  cases hrd : n.rd with
  | none => simp [hrd] at hn
  | some c =>
    simp [hrd] at hn
    rw [← hn]
    exact sample_bit_le c


theorem handler_unsynced (s : RxState) (n : Notif) (c : Nat) (hrd : n.rd = some c)
    (hl : s.lock_until ≤ n.now) (hu : s.unlocked = 0) (hs : s.synced = 0) :
    sigio_handler n s =
      if sync_pattern (shift_in s.sync_buf (sample_bit c)) = 0xAA then
        ({ s with sync_buf := shift_in s.sync_buf (sample_bit c), synced := 1, bit_index := 0,
                  bits := bits_zero }, [.sync])
      else ({ s with sync_buf := shift_in s.sync_buf (sample_bit c) }, []) := by
  unfold sigio_handler
  have h1 : ¬ (n.now < s.lock_until ∨ s.unlocked ≠ 0) := by
    rw [hu]; simp; exact hl
  rw [if_neg h1, hrd]
  simp only [hs, if_true]

/-- While the receiver searches for the sentinel and is not locked, its sync
buffer holds the window of the bits delivered so far. -/
theorem unsynced_run (s : RxState) (hs : s.synced = 0) (hw : s.sync_buf = sync_zero)
    (hu : s.unlocked = 0) (pre : List Notif)
    (hok : ∀ m ∈ pre, s.lock_until ≤ m.now ∧ m.rd.isSome = true)
    (hstay : ∀ k, k ≤ pre.length → (rx_run s (pre.take k)).synced = 0) :
    rx_run s pre = { s with sync_buf := window (bits_of pre) } := by
  induction pre using List.reverseRecOn with
  | nil =>
    simp only [rx_run, bits_of, List.filterMap_nil]
    cases s
    simp_all [window, sync_zero]
  | append_singleton pre n ih =>
    have hok1 : ∀ m ∈ pre, s.lock_until ≤ m.now ∧ m.rd.isSome = true :=
      fun m hm => hok m (List.mem_append_left _ hm)
    have hstay1 : ∀ k, k ≤ pre.length → (rx_run s (pre.take k)).synced = 0 := by
      intro k hk
      have := hstay k (by simp; omega)
      rwa [List.take_append_of_le_length hk] at this
    have ih1 := ih hok1 hstay1
    have hlast := hstay (pre.length + 1) (by simp)
    have htake : (pre ++ [n]).take (pre.length + 1) = pre ++ [n] := by
      apply List.take_of_length_le; simp
    rw [htake] at hlast
    rw [rx_run_append] at hlast ⊢
    rw [ih1] at hlast ⊢
    obtain ⟨hn1, hn2⟩ := hok n (by simp)
    obtain ⟨c, hc⟩ := Option.isSome_iff_exists.1 hn2
    have hbits : bits_of (pre ++ [n]) = bits_of pre ++ [sample_bit c] := by
      simp [bits_of, List.filterMap_append, hc]
    simp only [rx_run] at hlast ⊢
    rw [handler_unsynced { s with sync_buf := window (bits_of pre) } n c hc hn1 hu hs] at hlast ⊢
    rw [hbits, window_snoc, ← shift_in_eq _ _ (window_length _)]
    split at hlast
    · simp at hlast
    · rename_i hne
      simp only [hne, if_false]


theorem handler_unsynced_mk (now nc : Int) (c : Nat) (bits : List Nat) (bi : Nat) (fc lu : Int)
    (sb : List Nat) (hl : lu ≤ now) :
    sigio_handler ⟨now, some c, nc⟩ ⟨bits, bi, fc, lu, 0, 0, sb⟩ =
      if sync_pattern (shift_in sb (sample_bit c)) = 0xAA then
        (⟨bits_zero, 0, fc, lu, 0, 1, shift_in sb (sample_bit c)⟩, [.sync])
      else (⟨bits, bi, fc, lu, 0, 0, shift_in sb (sample_bit c)⟩, []) :=
  handler_unsynced ⟨bits, bi, fc, lu, 0, 0, sb⟩ ⟨now, some c, nc⟩ c rfl hl rfl rfl

set_option maxRecDepth 100000 in
theorem sentinel_run (s : RxState) (hs : s.synced = 0) (hw : s.sync_buf = sync_zero)
    (hu : s.unlocked = 0) (ns : List Notif)
    (hrd : ns.map (fun n => n.rd) =
      [some 49, some 48, some 49, some 48, some 49, some 48, some 49, some 48])
    (hok : ∀ n ∈ ns, s.lock_until ≤ n.now) :
    (∀ k, k < 8 → (rx_run s (ns.take k)).synced = 0) ∧
    rx_run s ns = { s with synced := 1, bit_index := 0, bits := bits_zero, sync_buf := sentinel } ∧
    rx_trace s ns = [[], [], [], [], [], [], [], [.sync]] := by
  have hlen : ns.length = 8 := by
    have := congrArg List.length hrd
    simpa using this
  obtain ⟨n1, n2, n3, n4, n5, n6, n7, n8, rfl⟩ := length_eq_eight ns hlen
  obtain ⟨a1, r1, c1⟩ := n1
  obtain ⟨a2, r2, c2⟩ := n2
  obtain ⟨a3, r3, c3⟩ := n3
  obtain ⟨a4, r4, c4⟩ := n4
  obtain ⟨a5, r5, c5⟩ := n5
  obtain ⟨a6, r6, c6⟩ := n6
  obtain ⟨a7, r7, c7⟩ := n7
  obtain ⟨a8, r8, c8⟩ := n8
  simp only [List.map_cons, List.map_nil, List.cons.injEq, and_true] at hrd
  obtain ⟨rfl, rfl, rfl, rfl, rfl, rfl, rfl, rfl⟩ := hrd
  simp only [List.mem_cons, List.mem_singleton, forall_eq_or_imp, forall_eq, List.not_mem_nil,
    false_imp_iff, implies_true, and_true] at hok
  obtain ⟨t1, t2, t3, t4, t5, t6, t7, t8⟩ := hok
  obtain ⟨bits, bi, fc, lu, un, sy, sb⟩ := s
  simp only at hs hw hu t1 t2 t3 t4 t5 t6 t7 t8
  subst hs hw hu
  have w1 : shift_in sync_zero (sample_bit 49) = [0,0,0,0,0,0,0,1] := by decide
  have w2 : shift_in [0,0,0,0,0,0,0,1] (sample_bit 48) = [0,0,0,0,0,0,1,0] := by decide
  have w3 : shift_in [0,0,0,0,0,0,1,0] (sample_bit 49) = [0,0,0,0,0,1,0,1] := by decide
  have w4 : shift_in [0,0,0,0,0,1,0,1] (sample_bit 48) = [0,0,0,0,1,0,1,0] := by decide
  have w5 : shift_in [0,0,0,0,1,0,1,0] (sample_bit 49) = [0,0,0,1,0,1,0,1] := by decide
  have w6 : shift_in [0,0,0,1,0,1,0,1] (sample_bit 48) = [0,0,1,0,1,0,1,0] := by decide
  have w7 : shift_in [0,0,1,0,1,0,1,0] (sample_bit 49) = [0,1,0,1,0,1,0,1] := by decide
  have w8 : shift_in [0,1,0,1,0,1,0,1] (sample_bit 48) = sentinel := by decide
  have p1 : sync_pattern [0,0,0,0,0,0,0,1] ≠ 170 := by decide
  have p2 : sync_pattern [0,0,0,0,0,0,1,0] ≠ 170 := by decide
  have p3 : sync_pattern [0,0,0,0,0,1,0,1] ≠ 170 := by decide
  have p4 : sync_pattern [0,0,0,0,1,0,1,0] ≠ 170 := by decide
  have p5 : sync_pattern [0,0,0,1,0,1,0,1] ≠ 170 := by decide
  have p6 : sync_pattern [0,0,1,0,1,0,1,0] ≠ 170 := by decide
  have p7 : sync_pattern [0,1,0,1,0,1,0,1] ≠ 170 := by decide
  have p8 : sync_pattern sentinel = 170 := by decide
  refine ⟨?_, ?_, ?_⟩
  · intro k hk
    interval_cases k <;>
      simp [rx_run, handler_unsynced_mk, t1, t2, t3, t4, t5, t6, t7, w1, w2, w3, w4, w5, w6, w7,
        p1, p2, p3, p4, p5, p6, p7]
  · simp [rx_run, handler_unsynced_mk, t1, t2, t3, t4, t5, t6, t7, t8, w1, w2, w3, w4, w5, w6, w7,
      w8, p1, p2, p3, p4, p5, p6, p7, p8]
  · simp [rx_run, rx_trace, handler_unsynced_mk, t1, t2, t3, t4, t5, t6, t7, t8, w1, w2, w3, w4, w5,
      w6, w7, w8, p1, p2, p3, p4, p5, p6, p7, p8]


theorem handler_synced (s : RxState) (n : Notif) (c : Nat) (hrd : n.rd = some c)
    (hl : s.lock_until ≤ n.now) (hu : s.unlocked = 0) (hs : s.synced ≠ 0) :
    sigio_handler n s =
      if s.bit_index + 1 ≥ MAX_BITS then
        ((check_password n.now_check
            { s with bits := s.bits.set s.bit_index (sample_bit c),
                     bit_index := s.bit_index + 1 }).1,
          .rx_bit s.bit_index (sample_bit c) ::
            (check_password n.now_check
              { s with bits := s.bits.set s.bit_index (sample_bit c),
                       bit_index := s.bit_index + 1 }).2)
      else
        ({ s with bits := s.bits.set s.bit_index (sample_bit c), bit_index := s.bit_index + 1 },
          [.rx_bit s.bit_index (sample_bit c)]) := by
  unfold sigio_handler
  have h1 : ¬ (n.now < s.lock_until ∨ s.unlocked ≠ 0) := by
    rw [hu]; simp; exact hl
  rw [if_neg h1, hrd]
  simp only [hs, if_false]

theorem bits_of_length (ns : List Notif) (hok : ∀ m ∈ ns, m.rd.isSome = true) :
    (bits_of ns).length = ns.length := by
  induction ns with
  | nil => rfl
  | cons n ns ih =>
    obtain ⟨c, hc⟩ := Option.isSome_iff_exists.1 (hok n (by simp))
    have := ih (fun m hm => hok m (List.mem_cons_of_mem _ hm))
    simp [bits_of, hc] at this ⊢
    exact this

theorem bits_of_snoc (pre : List Notif) (n : Notif) (c : Nat) (hc : n.rd = some c) :
    bits_of (pre ++ [n]) = bits_of pre ++ [sample_bit c] := by
  simp [bits_of, List.filterMap_append, hc]

/-- While a frame is being received, the frame buffer holds the bits delivered
since the sync match, followed by zeros, and the cursor counts them. -/
theorem synced_fill (s : RxState) (hs : s.synced ≠ 0) (hu : s.unlocked = 0)
    (hbi : s.bit_index = 0) (hb : s.bits = bits_zero) (pre : List Notif)
    (hlen : pre.length < 32)
    (hok : ∀ m ∈ pre, s.lock_until ≤ m.now ∧ m.rd.isSome = true) :
    rx_run s pre =
      { s with bits := bits_of pre ++ List.replicate (32 - pre.length) 0,
               bit_index := pre.length } ∧
    rx_trace s pre = (bits_of pre).enum.map (fun p => [RxEvent.rx_bit p.1 p.2]) := by
  induction pre using List.reverseRecOn with
  | nil =>
    simp only [rx_run, rx_trace, bits_of, List.filterMap_nil, List.length_nil, List.nil_append]
    cases s
    simp_all [bits_zero, MAX_BITS, PASSWORD_LEN, List.enum]
  | append_singleton pre n ih =>
    have hlen1 : pre.length < 31 := by simp at hlen; omega
    have hok1 : ∀ m ∈ pre, s.lock_until ≤ m.now ∧ m.rd.isSome = true :=
      fun m hm => hok m (List.mem_append_left _ hm)
    obtain ⟨ih1, ih2⟩ := ih (by omega) hok1
    obtain ⟨hn1, hn2⟩ := hok n (by simp)
    obtain ⟨c, hc⟩ := Option.isSome_iff_exists.1 hn2
    have hbl := bits_of_length pre (fun m hm => (hok1 m hm).2)
    rw [rx_run_append, rx_trace_append, ih1, ih2, bits_of_snoc pre n c hc]
    simp only [rx_run, rx_trace]
    rw [handler_synced
      { s with bits := bits_of pre ++ List.replicate (32 - pre.length) 0,
               bit_index := pre.length } n c hc hn1 hu hs]
    have hnot : ¬ (pre.length + 1 ≥ MAX_BITS) := by
      simp [MAX_BITS, PASSWORD_LEN]; omega
    simp only [hnot, if_false]
    have hset : (bits_of pre ++ List.replicate (32 - pre.length) 0).set pre.length (sample_bit c)
        = bits_of pre ++ [sample_bit c] ++ List.replicate (32 - (pre ++ [n]).length) 0 := by
      rw [List.set_append_right _ _ (by omega), hbl, Nat.sub_self]
      have : 32 - pre.length = (32 - (pre ++ [n]).length) + 1 := by simp; omega
      rw [this, List.replicate_succ, List.set_cons_zero]
      simp
    constructor
    · rw [hset]; simp
    · simp [List.enum_append, List.enumFrom_singleton, hbl]

end Rx

namespace Tx

theorem sampled_send_bit (b d : Nat) (tl : List Wire) :
    sampled d 0 (send_bit b ++ tl) =
      (if b ≠ 0 then 49 else 48) :: sampled (if b ≠ 0 then 1 else 0) 0 tl := by
  by_cases hb : b = 0 <;> simp [send_bit, sampled, hb]

/-- The byte the receiver reads for a bit on the data line. -/
theorem sampled_send_bits (bs : List Nat) (d : Nat) (rest : List Wire) :
    ∃ d2, sampled d 0 ((bs.map send_bit).flatten ++ rest) =
      bs.map (fun b => if b ≠ 0 then 49 else 48) ++ sampled d2 0 rest := by
  induction bs generalizing d with
  | nil => exact ⟨d, rfl⟩
  | cons b bs ih =>
    obtain ⟨d2, h2⟩ := ih (if b ≠ 0 then 1 else 0)
    refine ⟨d2, ?_⟩
    simp only [List.map_cons, List.flatten_cons, List.append_assoc]
    rw [sampled_send_bit, h2]
    rfl

theorem send_byte_eq (c : Nat) : send_byte c = ((byte_bits c).map send_bit).flatten := by
  simp only [send_byte, byte_bits, List.map_map]
  rfl

theorem send_start_eq : send_start_sequence = ((byte_bits 0xAA).map send_bit).flatten := by
  simp only [send_start_sequence, byte_bits, List.map_map]
  rfl

theorem send_chars_eq (cred : List Nat) :
    send_chars cred =
      ((((List.range 4).map (fun i => byte_bits (cred.getD i 0))).flatten).map send_bit).flatten := by
  simp only [send_chars, send_byte_eq, List.map_flatten, List.flatten_flatten, List.map_map]
  rfl

theorem wire_eq (cred : List Nat) :
    send_start_sequence ++ send_chars cred = ((frame_bits cred).map send_bit).flatten := by
  rw [send_start_eq, send_chars_eq, frame_bits, List.map_append, List.flatten_append]

theorem byte_bits_le (c : Nat) : ∀ b ∈ byte_bits c, b ≤ 1 := by
  intro b hb
  simp only [byte_bits, List.mem_map] at hb
  obtain ⟨i, _, rfl⟩ := hb
  rw [Nat.and_one_is_mod]
  omega

theorem frame_bits_le (cred : List Nat) : ∀ b ∈ frame_bits cred, b ≤ 1 := by
  intro b hb
  simp only [frame_bits, List.mem_append, List.mem_flatten, List.mem_map] at hb
  rcases hb with hb | ⟨l, ⟨i, _, rfl⟩, hb⟩
  · exact byte_bits_le _ b hb
  · exact byte_bits_le _ b hb

theorem byte_bits_length (c : Nat) : (byte_bits c).length = 8 := by
  simp [byte_bits]

theorem sampled_frame (cred : List Nat) (d : Nat) :
    sampled d 0 (send_start_sequence ++ send_chars cred) =
      (frame_bits cred).map (fun b => if b ≠ 0 then 49 else 48) := by
  obtain ⟨d2, h⟩ := sampled_send_bits (frame_bits cred) d []
  rw [wire_eq, ← List.append_nil (List.flatten _), h]
  simp [sampled]

theorem frame_split (cred : List Nat) :
    frame_bits cred = byte_bits 0xAA ++
      (byte_bits (cred.getD 0 0) ++ (byte_bits (cred.getD 1 0) ++ (byte_bits (cred.getD 2 0) ++
        byte_bits (cred.getD 3 0)))) := by
  simp [frame_bits, List.range, List.range.loop]

theorem sentinel_bits : byte_bits 0xAA = Rx.sentinel := by decide

end Tx

namespace Rx

set_option maxRecDepth 100000 in
theorem bits_to_char_byte : ∀ c < 256, bits_to_char (Tx.byte_bits c) = c := by
  decide

theorem bits_to_char_append (l rest : List Nat) (h : l.length = 8) :
    bits_to_char (l ++ rest) = bits_to_char l := by
  obtain ⟨a1, a2, a3, a4, a5, a6, a7, a8, rfl⟩ := length_eq_eight l h
  rfl

theorem recv_buf_eq (bits : List Nat) :
    recv_buf bits = [bits_to_char bits, bits_to_char (bits.drop 8), bits_to_char (bits.drop 16),
      bits_to_char (bits.drop 24), 0, 0, 0, 0, 0, 0, 0, 0, 0, 0, 0, 0] := by
  have hf : (List.range MAX_BITS).filter (fun i => i % 8 == 0) = [0, 8, 16, 24] := by decide
  rw [recv_buf, hf]
  rfl

theorem recv_buf_bytes (c0 c1 c2 c3 : Nat) (h0 : c0 < 256) (h1 : c1 < 256) (h2 : c2 < 256)
    (h3 : c3 < 256) :
    recv_buf (Tx.byte_bits c0 ++ (Tx.byte_bits c1 ++ (Tx.byte_bits c2 ++ Tx.byte_bits c3))) =
      [c0, c1, c2, c3, 0, 0, 0, 0, 0, 0, 0, 0, 0, 0, 0, 0] := by
  rw [recv_buf_eq]
  have d8 : ∀ (c : Nat) (r : List Nat), (Tx.byte_bits c ++ r).drop 8 = r := by
    intro c r
    have := List.drop_left (Tx.byte_bits c) r
    rwa [Tx.byte_bits_length] at this
  have e16 : (Tx.byte_bits c0 ++ (Tx.byte_bits c1 ++ (Tx.byte_bits c2 ++ Tx.byte_bits c3))).drop 16
      = Tx.byte_bits c2 ++ Tx.byte_bits c3 := by
    rw [show 16 = 8 + 8 from rfl, ← List.drop_drop, d8, d8]
  have e24 : (Tx.byte_bits c0 ++ (Tx.byte_bits c1 ++ (Tx.byte_bits c2 ++ Tx.byte_bits c3))).drop 24
      = Tx.byte_bits c3 := by
    rw [show 24 = 8 + (8 + 8) from rfl, ← List.drop_drop, ← List.drop_drop, d8, d8, d8]
  rw [e16, e24, d8]
  rw [bits_to_char_append _ _ (Tx.byte_bits_length _), bits_to_char_append _ _ (Tx.byte_bits_length _),
    bits_to_char_append _ _ (Tx.byte_bits_length _), bits_to_char_byte c0 h0, bits_to_char_byte c1 h1,
    bits_to_char_byte c2 h2, bits_to_char_byte c3 h3]

/-- `strcmp` of the receive buffer with the secret compares the four decoded characters. -/
theorem strcmp_recv (a b c d : Nat) :
    strcmp_eq [a, b, c, d, 0, 0, 0, 0, 0, 0, 0, 0, 0, 0, 0, 0] correct_pw = true ↔
      [a, b, c, d] = [49, 50, 51, 52] := by
  unfold strcmp_eq c_str correct_pw
  by_cases ha : a = 0
  · subst ha; simp [List.takeWhile_cons]
  by_cases hb : b = 0
  · subst hb; simp [List.takeWhile_cons, ha]
  by_cases hc : c = 0
  · subst hc; simp [List.takeWhile_cons, ha, hb]
  by_cases hd : d = 0
  · subst hd; simp [List.takeWhile_cons, ha, hb, hc]
  simp [List.takeWhile_cons, ha, hb, hc, hd]

theorem c_str_recv (a b c d : Nat) (ha : a ≠ 0) (hb : b ≠ 0) (hc : c ≠ 0) (hd : d ≠ 0) :
    c_str [a, b, c, d, 0, 0, 0, 0, 0, 0, 0, 0, 0, 0, 0, 0] = [a, b, c, d] := by
  simp [c_str, List.takeWhile_cons, ha, hb, hc, hd]


/-- The 32nd bit after the sync match completes the frame: the handler calls
`check_password` on the 32 bits received. -/
theorem frame_run (s : RxState) (hs : s.synced ≠ 0) (hu : s.unlocked = 0)
    (hbi : s.bit_index = 0) (hb : s.bits = bits_zero) (pre : List Notif) (n : Notif)
    (hlen : pre.length = 31)
    (hok : ∀ m ∈ pre ++ [n], s.lock_until ≤ m.now ∧ m.rd.isSome = true) :
    rx_run s (pre ++ [n]) =
      (check_password n.now_check { s with bits := bits_of (pre ++ [n]), bit_index := 32 }).1 ∧
    rx_trace s (pre ++ [n]) =
      (bits_of pre).enum.map (fun p => [RxEvent.rx_bit p.1 p.2]) ++
        [.rx_bit 31 ((bits_of (pre ++ [n])).getD 31 0) ::
          (check_password n.now_check { s with bits := bits_of (pre ++ [n]), bit_index := 32 }).2] := by
  have hok1 : ∀ m ∈ pre, s.lock_until ≤ m.now ∧ m.rd.isSome = true :=
    fun m hm => hok m (List.mem_append_left _ hm)
  obtain ⟨h1, h2⟩ := synced_fill s hs hu hbi hb pre (by omega) hok1
  obtain ⟨hn1, hn2⟩ := hok n (by simp)
  obtain ⟨c, hc⟩ := Option.isSome_iff_exists.1 hn2
  have hbl := bits_of_length pre (fun m hm => (hok1 m hm).2)
  rw [rx_run_append, rx_trace_append, h1, h2, bits_of_snoc pre n c hc]
  simp only [rx_run, rx_trace]
  rw [handler_synced
    { s with bits := bits_of pre ++ List.replicate (32 - pre.length) 0,
             bit_index := pre.length } n c hc hn1 hu hs]
  have hge : pre.length + 1 ≥ MAX_BITS := by
    simp [MAX_BITS, PASSWORD_LEN, hlen]
  simp only [hge, if_true]
  have hset : (bits_of pre ++ List.replicate (32 - pre.length) 0).set pre.length (sample_bit c)
      = bits_of pre ++ [sample_bit c] := by
    rw [List.set_append_right _ _ (by omega), hbl, Nat.sub_self, hlen]
    rfl
  have hget : (bits_of pre ++ [sample_bit c]).getD 31 0 = sample_bit c := by
    rw [List.getD_eq_getElem?_getD, List.getElem?_append_right (by omega), hbl, hlen]
    rfl
  rw [hset, hget, hlen]
  exact ⟨rfl, rfl⟩

theorem check_password_received (t : Int) (s : RxState) :
    (check_password t s).2.filter is_received = [.received (c_str (recv_buf s.bits))] := by
  unfold check_password
  simp only
  split
  · rfl
  · split <;> rfl


/-- A whole frame: from the searching state the sentinel is matched on its
eighth bit, the receiver stays synced over the next 31 bits, and the 32nd
makes it call `check_password` on the 32 bits that followed the sentinel. -/
theorem received_frame (s : RxState) (hs : s.synced = 0) (hw : s.sync_buf = sync_zero)
    (hu : s.unlocked = 0) (ns8 pre : List Notif) (n : Notif)
    (hrd : ns8.map (fun n => n.rd) =
      [some 49, some 48, some 49, some 48, some 49, some 48, some 49, some 48])
    (hok8 : ∀ m ∈ ns8, s.lock_until ≤ m.now)
    (hlen : pre.length = 31)
    (hok : ∀ m ∈ pre ++ [n], s.lock_until ≤ m.now ∧ m.rd.isSome = true) :
    (∀ k, k < 8 → (rx_run s (ns8.take k)).synced = 0) ∧
    (∀ j, j ≤ 31 → (rx_run s (ns8 ++ pre.take j)).synced = 1) ∧
    rx_run s (ns8 ++ (pre ++ [n])) =
      (check_password n.now_check
        { s with synced := 1, bit_index := 32, bits := bits_of (pre ++ [n]),
                 sync_buf := sentinel }).1 ∧
    rx_trace s (ns8 ++ (pre ++ [n])) =
      [[], [], [], [], [], [], [], [.sync]] ++
        ((bits_of pre).enum.map (fun p => [RxEvent.rx_bit p.1 p.2]) ++
          [.rx_bit 31 ((bits_of (pre ++ [n])).getD 31 0) ::
            (check_password n.now_check
              { s with synced := 1, bit_index := 32, bits := bits_of (pre ++ [n]),
                       sync_buf := sentinel }).2]) := by
  obtain ⟨h1, h2, h3⟩ := sentinel_run s hs hw hu ns8 hrd hok8
  have hs8 : ({ s with synced := 1, bit_index := 0, bits := bits_zero, sync_buf := sentinel } :
      RxState).synced ≠ 0 := by simp
  obtain ⟨f1, f2⟩ := frame_run
    { s with synced := 1, bit_index := 0, bits := bits_zero, sync_buf := sentinel }
    hs8 hu rfl rfl pre n hlen hok
  refine ⟨h1, ?_, ?_, ?_⟩
  · intro j hj
    rw [rx_run_append, h2]
    by_cases hj31 : j = 31
    · subst hj31
      have : pre.take 31 = pre := List.take_of_length_le (by omega)
      rw [this]
      have hok1 : ∀ m ∈ pre, s.lock_until ≤ m.now ∧ m.rd.isSome = true :=
        fun m hm => hok m (List.mem_append_left _ hm)
      rw [(synced_fill _ hs8 hu rfl rfl pre (by omega) hok1).1]
    · have hok1 : ∀ m ∈ pre.take j, s.lock_until ≤ m.now ∧ m.rd.isSome = true :=
        fun m hm => hok m (List.mem_append_left _ (List.mem_of_mem_take hm))
      rw [(synced_fill _ hs8 hu rfl rfl (pre.take j) (by simp; omega) hok1).1]
  · rw [rx_run_append, h2, f1]
  · rw [rx_trace_append, h2, h3, f2]

end Rx

namespace Tx

theorem notifs_map_rd (S : List Nat) (times : List (Int × Int)) (h : S.length ≤ times.length) :
    (notifs S times).map (fun n => n.rd) = S.map some := by
  induction S generalizing times with
  | nil => simp [notifs]
  | cons c S ih =>
    cases times with
    | nil => simp at h
    | cons t times =>
      have := ih times (by simpa using h)
      simp only [notifs] at this ⊢
      simp [this]

theorem notifs_bits (S : List Nat) (times : List (Int × Int)) (h : S.length ≤ times.length) :
    Rx.bits_of (notifs S times) = S.map Rx.sample_bit := by
  induction S generalizing times with
  | nil => simp [notifs, Rx.bits_of]
  | cons c S ih =>
    cases times with
    | nil => simp at h
    | cons t times =>
      have := ih times (by simpa using h)
      simp only [notifs, Rx.bits_of] at this ⊢
      simp [this]

theorem notifs_mem (S : List Nat) (times : List (Int × Int)) :
    ∀ m ∈ notifs S times, (∃ t ∈ times, m.now = t.1) ∧ m.rd.isSome = true := by
  induction S generalizing times with
  | nil => simp [notifs]
  | cons c S ih =>
    cases times with
    | nil => simp [notifs]
    | cons t times =>
      intro m hm
      simp only [notifs, List.zipWith_cons_cons, List.mem_cons] at hm
      rcases hm with rfl | hm
      · simp
      · obtain ⟨⟨t2, ht2, e⟩, h2⟩ := ih times m hm
        exact ⟨⟨t2, List.mem_cons_of_mem _ ht2, e⟩, h2⟩

theorem notifs_append (A B : List Nat) (times : List (Int × Int)) (h : A.length ≤ times.length) :
    notifs (A ++ B) times = notifs A (times.take A.length) ++ notifs B (times.drop A.length) := by
  unfold notifs
  conv_lhs => rw [← List.take_append_drop A.length times]
  rw [List.zipWith_append]
  simp [h]

theorem notifs_length (S : List Nat) (times : List (Int × Int)) :
    (notifs S times).length = min S.length times.length := by
  simp [notifs]

theorem sample_char (b : Nat) (h : b ≤ 1) : Rx.sample_bit (if b ≠ 0 then 49 else 48) = b := by
  interval_cases b <;> rfl

theorem map_sample_char (bs : List Nat) (h : ∀ b ∈ bs, b ≤ 1) :
    (bs.map (fun b => if b ≠ 0 then 49 else 48)).map Rx.sample_bit = bs := by
  rw [List.map_map]
  conv_rhs => rw [← List.map_id bs]
  apply List.map_congr_left
  intro b hb
  exact sample_char b (h b hb)

end Tx

namespace Rx

/-- The comparison in `check_password` succeeds exactly when the frame decodes to the secret. -/
theorem strcmp_decoded (bits : List Nat) :
    strcmp_eq (recv_buf bits) correct_pw = true ↔ decoded bits = secret := by
  unfold decoded
  rw [recv_buf_eq, strcmp_recv]
  simp [secret, correct_pw, PASSWORD_LEN]

theorem check_password_wrong (t : Int) (s : RxState) (hbad : decoded s.bits ≠ secret) :
    check_password t s =
      if int_incr s.fail_count ≥ MAX_FAIL then
        ({ s with fail_count := int_incr s.fail_count, lock_until := t + LOCK_TIME_SEC,
                  bit_index := 0, bits := bits_zero, synced := 0, sync_buf := sync_zero },
          [.received (c_str (recv_buf s.bits)), .locked (int_incr s.fail_count)])
      else
        ({ s with fail_count := int_incr s.fail_count,
                  bit_index := 0, bits := bits_zero, synced := 0, sync_buf := sync_zero },
          [.received (c_str (recv_buf s.bits)), .denied (int_incr s.fail_count)]) := by
  have h : strcmp_eq (recv_buf s.bits) correct_pw = false := by
    cases hcmp : strcmp_eq (recv_buf s.bits) correct_pw with
    | false => rfl
    | true => exact absurd ((strcmp_decoded s.bits).1 hcmp) hbad
  unfold check_password
  by_cases hc : int_incr s.fail_count ≥ MAX_FAIL
  · simp [h, hc]
  · simp [h, hc]

theorem int_incr_eq (x : Int) (h : x ≠ INT_MAX) : int_incr x = x + 1 := by
  simp [int_incr, h]


/-- C1 (end-to-end frame transfer). Let `cred` be four decimal digits and `ns`
the notifications a receiver gets, one per rising clock edge, when the
transmitter runs `send_start_sequence` and then sends the four characters, the
clock line being low at the start. The bits delivered are the sentinel 0xAA and
the characters, most significant bit first. If the receiver starts UNSYNCED,
not unlocked, with a zeroed sync window, and every notification arrives at a
time that is not before `lock_until`, then `synced` is 0 after each of the first
7 bits and 1 after bits 8 to 39, none of the first 39 notifications prints a
`Received PW` line, and the 40th prints exactly one, with the credential sent.
For the credential 1234 the receiver ends unlocked with `fail_count` 0, so
that its wait loop exits. -/
theorem end_to_end_frame (cred : List Nat) (hc : cred.length = 4)
    (hdig : ∀ c ∈ cred, 48 ≤ c ∧ c ≤ 57)
    (s : RxState) (hs : s.synced = 0) (hw : s.sync_buf = sync_zero) (hu : s.unlocked = 0)
    (lvl : Nat) (times : List (Int × Int)) (hlen : times.length = 40)
    (hnl : ∀ t ∈ times, s.lock_until ≤ t.1) :
    bits_of (Tx.notifs (Tx.sampled lvl 0 (Tx.send_start_sequence ++ Tx.send_chars cred)) times)
      = Tx.frame_bits cred ∧
    (Tx.notifs (Tx.sampled lvl 0 (Tx.send_start_sequence ++ Tx.send_chars cred)) times).length
      = 40 ∧
    (∀ k, k < 8 → (rx_run s ((Tx.notifs (Tx.sampled lvl 0
        (Tx.send_start_sequence ++ Tx.send_chars cred)) times).take k)).synced = 0) ∧
    (∀ k, 8 ≤ k → k < 40 → (rx_run s ((Tx.notifs (Tx.sampled lvl 0
        (Tx.send_start_sequence ++ Tx.send_chars cred)) times).take k)).synced = 1) ∧
    (∀ evs ∈ (rx_trace s (Tx.notifs (Tx.sampled lvl 0
        (Tx.send_start_sequence ++ Tx.send_chars cred)) times)).take 39,
      ∀ e ∈ evs, is_received e = false) ∧
    ((rx_trace s (Tx.notifs (Tx.sampled lvl 0
        (Tx.send_start_sequence ++ Tx.send_chars cred)) times)).getD 39 []).filter is_received
      = [.received cred] ∧
    (cred = [49, 50, 51, 52] →
      (rx_run s (Tx.notifs (Tx.sampled lvl 0
        (Tx.send_start_sequence ++ Tx.send_chars cred)) times)).unlocked = 1 ∧
      (rx_run s (Tx.notifs (Tx.sampled lvl 0
        (Tx.send_start_sequence ++ Tx.send_chars cred)) times)).fail_count = 0 ∧
      wait_loop_exits (rx_run s (Tx.notifs (Tx.sampled lvl 0
        (Tx.send_start_sequence ++ Tx.send_chars cred)) times))) := by
  -- the credential, character by character
  obtain ⟨d0, d1, d2, d3, rfl⟩ : ∃ d0 d1 d2 d3, cred = [d0, d1, d2, d3] := by
    match cred, hc with
    | [d0, d1, d2, d3], _ => exact ⟨d0, d1, d2, d3, rfl⟩
  simp only [List.mem_cons, List.mem_singleton, forall_eq_or_imp, forall_eq, List.not_mem_nil,
    false_imp_iff, implies_true, and_true] at hdig
  obtain ⟨⟨l0, u0⟩, ⟨l1, u1⟩, ⟨l2, u2⟩, ⟨l3, u3⟩⟩ := hdig
  -- the bytes sampled and their split into sentinel and payload
  have hS := Tx.sampled_frame [d0, d1, d2, d3] lvl
  have hsplit := Tx.frame_split [d0, d1, d2, d3]
  simp only [List.getD_cons_zero, List.getD_cons_succ] at hsplit
  rw [Tx.sentinel_bits] at hsplit
  generalize hP : Tx.byte_bits d0 ++ (Tx.byte_bits d1 ++ (Tx.byte_bits d2 ++ Tx.byte_bits d3)) = P
    at hsplit
  have hPlen : P.length = 32 := by
    rw [← hP]; simp [Tx.byte_bits_length]
  have hPle : ∀ b ∈ P, b ≤ 1 := by
    intro b hb
    apply Tx.frame_bits_le [d0, d1, d2, d3] b
    rw [hsplit]; exact List.mem_append_right _ hb
  rw [hS, hsplit, List.map_append]
  generalize hS8 : List.map (fun b => if b ≠ 0 then 49 else 48) sentinel = S8
  generalize hS32 : List.map (fun b => if b ≠ 0 then 49 else 48) P = S32
  have hS8v : S8 = [49, 48, 49, 48, 49, 48, 49, 48] := by rw [← hS8]; decide
  have hS8len : S8.length = 8 := by rw [hS8v]; rfl
  have hS32len : S32.length = 32 := by rw [← hS32, List.length_map, hPlen]
  rw [Tx.notifs_append S8 S32 times (by omega), hS8len]
  generalize hns8 : Tx.notifs S8 (times.take 8) = ns8
  generalize hns32 : Tx.notifs S32 (times.drop 8) = ns32
  have hns8len : ns8.length = 8 := by
    rw [← hns8, Tx.notifs_length]; simp [hS8len, hlen]
  have hns32len : ns32.length = 32 := by
    rw [← hns32, Tx.notifs_length]; simp [hS32len, hlen]
  have hrd : ns8.map (fun n => n.rd) =
      [some 49, some 48, some 49, some 48, some 49, some 48, some 49, some 48] := by
    rw [← hns8, Tx.notifs_map_rd _ _ (by simp [hS8len, hlen]), hS8v]; rfl
  have hok8 : ∀ m ∈ ns8, s.lock_until ≤ m.now := by
    intro m hm
    rw [← hns8] at hm
    obtain ⟨⟨t, ht, e⟩, _⟩ := Tx.notifs_mem _ _ m hm
    rw [e]; exact hnl t (List.mem_of_mem_take ht)
  have hok32 : ∀ m ∈ ns32, s.lock_until ≤ m.now ∧ m.rd.isSome = true := by
    intro m hm
    rw [← hns32] at hm
    obtain ⟨⟨t, ht, e⟩, h2⟩ := Tx.notifs_mem _ _ m hm
    rw [e]; exact ⟨hnl t (List.mem_of_mem_drop ht), h2⟩
  have hbits8 : bits_of ns8 = sentinel := by
    rw [← hns8, Tx.notifs_bits _ _ (by simp [hS8len, hlen]), hS8v]; decide
  have hbits32 : bits_of ns32 = P := by
    rw [← hns32, Tx.notifs_bits _ _ (by simp [hS32len, hlen]), ← hS32, Tx.map_sample_char P hPle]
  -- the last notification apart
  have hne : ns32 ≠ [] := by
    intro h; rw [h] at hns32len; simp at hns32len
  obtain ⟨pre, n, hpn⟩ : ∃ pre n, ns32 = pre ++ [n] :=
    ⟨ns32.dropLast, ns32.getLast hne, (List.dropLast_append_getLast hne).symm⟩
  have hprelen : pre.length = 31 := by
    rw [hpn] at hns32len; simp at hns32len; omega
  rw [hpn] at hok32 hbits32
  rw [hpn]
  obtain ⟨r1, r2, r3, r4⟩ := received_frame s hs hw hu ns8 pre n hrd hok8 hprelen hok32
  have hrecv : recv_buf P = [d0, d1, d2, d3, 0, 0, 0, 0, 0, 0, 0, 0, 0, 0, 0, 0] := by
    rw [← hP]
    exact recv_buf_bytes d0 d1 d2 d3 (by omega) (by omega) (by omega) (by omega)
  have hprebits : (bits_of pre).length = 31 := by
    rw [bits_of_length pre (fun m hm => (hok32 m (List.mem_append_left _ hm)).2), hprelen]
  refine ⟨?_, ?_, ?_, ?_, ?_, ?_, ?_⟩
  · simp only [bits_of, List.filterMap_append] at hbits8 hbits32 ⊢
    rw [hbits8, hbits32]
  · simp [hns8len, hprelen]
  · intro k hk
    rw [List.take_append_of_le_length (by omega)]
    exact r1 k hk
  · intro k hk8 hk40
    have : (ns8 ++ (pre ++ [n])).take k = ns8 ++ pre.take (k - 8) := by
      rw [List.take_append_eq_append_take, List.take_of_length_le (by omega), hns8len,
        List.take_append_of_le_length (by omega)]
    rw [this]
    exact r2 (k - 8) (by omega)
  · intro evs hevs e he
    rw [r4, ← List.append_assoc, List.take_append_of_le_length (by simp [hprebits]),
      List.take_of_length_le (by simp [hprebits])] at hevs
    rcases List.mem_append.1 hevs with h | h
    · simp only [List.mem_cons, List.mem_singleton, List.not_mem_nil, or_false] at h
      rcases h with h | h | h | h | h | h | h | h <;> subst h <;> simp_all [is_received]
    · obtain ⟨p, _, rfl⟩ := List.mem_map.1 h
      simp only [List.mem_singleton] at he
      subst he
      rfl
  · rw [r4, ← List.append_assoc, List.getD_eq_getElem?_getD,
      List.getElem?_append_right (by simp [hprebits])]
    simp only [List.length_append, List.length_cons, List.length_nil, List.length_map,
      List.enum_length, hprebits]
    simp only [Nat.reduceAdd, Nat.sub_self, List.getElem?_cons_zero, Option.getD_some,
      List.filter_cons, is_received]
    rw [check_password_received]
    simp only [hbits32, hrecv]
    rw [c_str_recv d0 d1 d2 d3 (by omega) (by omega) (by omega) (by omega)]
    simp
  · intro hcred
    simp only [List.cons.injEq, and_true] at hcred
    obtain ⟨rfl, rfl, rfl, rfl⟩ := hcred
    rw [r3]
    have hcmp : strcmp_eq (recv_buf (bits_of (pre ++ [n]))) correct_pw = true := by
      rw [hbits32, hrecv]; decide
    simp [check_password, hcmp, wait_loop_exits]

set_option maxRecDepth 1000000 in
/-- The credential 1234 sent at time 5 to a receiver that was never locked. -/
theorem end_to_end_frame_witness :
    (∀ c ∈ ([49, 50, 51, 52] : List Nat), 48 ≤ c ∧ c ≤ 57) ∧
    (∀ t ∈ List.replicate 40 ((5 : Int), (5 : Int)), (0 : Int) ≤ t.1) ∧
    (rx_run ⟨bits_zero, 0, 3, 0, 0, 0, sync_zero⟩
      (Tx.notifs (Tx.sampled 0 0 (Tx.send_start_sequence ++ Tx.send_chars [49, 50, 51, 52]))
        (List.replicate 40 (5, 5)))).unlocked = 1 ∧
    (rx_run ⟨bits_zero, 0, 3, 0, 0, 0, sync_zero⟩
      (Tx.notifs (Tx.sampled 0 0 (Tx.send_start_sequence ++ Tx.send_chars [49, 50, 51, 52]))
        (List.replicate 40 (5, 5)))).fail_count = 0 :=
  ⟨by decide, by decide,
    ((end_to_end_frame [49, 50, 51, 52] rfl (by decide) ⟨bits_zero, 0, 3, 0, 0, 0, sync_zero⟩
      rfl rfl rfl 0 (List.replicate 40 (5, 5)) rfl (by decide)).2.2.2.2.2.2 rfl).1,
    ((end_to_end_frame [49, 50, 51, 52] rfl (by decide) ⟨bits_zero, 0, 3, 0, 0, 0, sync_zero⟩
      rfl rfl rfl 0 (List.replicate 40 (5, 5)) rfl (by decide)).2.2.2.2.2.2 rfl).2.1⟩


/-- C2 (sync detection). From the UNSYNCED state with an all-zero sync window,
not unlocked: (1) the bits 1,0,1,0,1,0,1,0, each delivered at a time that is
not before `lock_until`, leave `synced` at 0 after each of the first seven bits
and set it on the eighth, with `bit_index` 0, a cleared frame buffer and a
single SYNC message printed, by the eighth notification; (2) for every sequence
`pre` of bits delivered while the receiver stayed UNSYNCED and every further
bit `n`, the handler sets `synced` on `n` if and only if the window of the 8
most recent bits, padded with zeros on the old side, is 10101010, and when it
does `bit_index` is 0 and the frame buffer is cleared. -/
theorem sync_detection (s : RxState) (hs : s.synced = 0) (hw : s.sync_buf = sync_zero)
    (hu : s.unlocked = 0) :
    (∀ ns : List Notif,
        ns.map (fun n => n.rd) =
          [some 49, some 48, some 49, some 48, some 49, some 48, some 49, some 48] →
        (∀ n ∈ ns, s.lock_until ≤ n.now) →
        (∀ k, k < 8 → (rx_run s (ns.take k)).synced = 0) ∧
        (rx_run s ns).synced = 1 ∧ (rx_run s ns).bit_index = 0 ∧
        (rx_run s ns).bits = bits_zero ∧
        rx_trace s ns = [[], [], [], [], [], [], [], [.sync]]) ∧
    (∀ (pre : List Notif) (n : Notif),
        (∀ m ∈ pre ++ [n], s.lock_until ≤ m.now ∧ m.rd.isSome = true) →
        (∀ k, k ≤ pre.length → (rx_run s (pre.take k)).synced = 0) →
        ((rx_run s (pre ++ [n])).synced = 1 ↔ window (bits_of (pre ++ [n])) = sentinel) ∧
        ((rx_run s (pre ++ [n])).synced = 1 →
          (rx_run s (pre ++ [n])).bit_index = 0 ∧ (rx_run s (pre ++ [n])).bits = bits_zero)) := by
  constructor
  · intro ns hrd hok
    obtain ⟨h1, h2, h3⟩ := sentinel_run s hs hw hu ns hrd hok
    refine ⟨h1, ?_, ?_, ?_, h3⟩ <;> rw [h2]
  · intro pre n hok hstay
    have hok1 : ∀ m ∈ pre, s.lock_until ≤ m.now ∧ m.rd.isSome = true :=
      fun m hm => hok m (List.mem_append_left _ hm)
    have hpre := unsynced_run s hs hw hu pre hok1 hstay
    obtain ⟨hn1, hn2⟩ := hok n (by simp)
    obtain ⟨c, hc⟩ := Option.isSome_iff_exists.1 hn2
    have hbits : bits_of (pre ++ [n]) = bits_of pre ++ [sample_bit c] := by
      simp [bits_of, List.filterMap_append, hc]
    have hsh : shift_in (window (bits_of pre)) (sample_bit c) = window (bits_of (pre ++ [n])) := by
      rw [hbits, window_snoc, shift_in_eq _ _ (window_length _)]
    have hpat := sync_pattern_iff (window (bits_of (pre ++ [n]))) (window_length _)
      (window_bit _ (bits_of_le _))
    rw [rx_run_append, hpre]
    simp only [rx_run]
    rw [handler_unsynced { s with sync_buf := window (bits_of pre) } n c hc hn1 hu hs]
    simp only [hsh]
    by_cases hm : window (bits_of (pre ++ [n])) = sentinel
    · have hp := hpat.2 hm
      rw [if_pos hp]
      simp [hm]
    · have hp : ¬ sync_pattern (window (bits_of (pre ++ [n]))) = 0xAA := fun h => hm (hpat.1 h)
      rw [if_neg hp]
      simp [hm, hs]

/-- The eight notifications that deliver the sentinel at time 7. -/
theorem sync_detection_witness :
    (∀ m ∈ [(⟨7, some 49, 7⟩ : Notif), ⟨7, some 48, 7⟩, ⟨7, some 49, 7⟩, ⟨7, some 48, 7⟩,
          ⟨7, some 49, 7⟩, ⟨7, some 48, 7⟩, ⟨7, some 49, 7⟩] ++ [⟨7, some 48, 7⟩],
        (0 : Int) ≤ m.now ∧ m.rd.isSome = true) ∧
    (rx_run ⟨bits_zero, 0, 0, 0, 0, 0, sync_zero⟩
        ([(⟨7, some 49, 7⟩ : Notif), ⟨7, some 48, 7⟩, ⟨7, some 49, 7⟩, ⟨7, some 48, 7⟩,
          ⟨7, some 49, 7⟩, ⟨7, some 48, 7⟩, ⟨7, some 49, 7⟩] ++ [⟨7, some 48, 7⟩])).synced = 1 := by
  have hok : ∀ m ∈ [(⟨7, some 49, 7⟩ : Notif), ⟨7, some 48, 7⟩, ⟨7, some 49, 7⟩, ⟨7, some 48, 7⟩,
          ⟨7, some 49, 7⟩, ⟨7, some 48, 7⟩, ⟨7, some 49, 7⟩] ++ [⟨7, some 48, 7⟩],
        (0 : Int) ≤ m.now ∧ m.rd.isSome = true := by decide
  refine ⟨hok, ?_⟩
  have h := (sync_detection ⟨bits_zero, 0, 0, 0, 0, 0, sync_zero⟩ rfl rfl rfl).2
    [⟨7, some 49, 7⟩, ⟨7, some 48, 7⟩, ⟨7, some 49, 7⟩, ⟨7, some 48, 7⟩,
      ⟨7, some 49, 7⟩, ⟨7, some 48, 7⟩, ⟨7, some 49, 7⟩] ⟨7, some 48, 7⟩ hok (by decide)
  exact h.1.2 (by decide)


/-- C3 (lockout threshold). For every receiver state whose frame does not
decode to the secret (and whose counter is not at `INT_MAX`, where `++` is
undefined in C), `check_password` at time `t` adds exactly 1 to `fail_count`
and leaves `unlocked` as it was, so 0 stays 0; when the new count is at least
`MAX_FAIL` it prints LOCKED and sets `lock_until` to `t + 30`, otherwise it
prints DENIED and leaves `lock_until` unchanged; from `fail_count = 4` the
outcome is LOCK with `lock_until = t + 30`. -/
theorem lockout_threshold (t : Int) (s : RxState) (hbad : decoded s.bits ≠ secret)
    (hfc : s.fail_count ≠ INT_MAX) :
    (check_password t s).1.fail_count = s.fail_count + 1 ∧
    (check_password t s).1.unlocked = s.unlocked ∧
    (s.unlocked = 0 → (check_password t s).1.unlocked = 0) ∧
    (MAX_FAIL ≤ s.fail_count + 1 →
      outcome_of (check_password t s).2 = some .lock ∧
      (check_password t s).1.lock_until = t + LOCK_TIME_SEC) ∧
    (s.fail_count + 1 < MAX_FAIL →
      outcome_of (check_password t s).2 = some .deny ∧
      (check_password t s).1.lock_until = s.lock_until) ∧
    (s.fail_count = 4 →
      outcome_of (check_password t s).2 = some .lock ∧
      (check_password t s).1.lock_until = t + 30) := by
  rw [check_password_wrong t s hbad, int_incr_eq _ hfc]
  by_cases h : s.fail_count + 1 ≥ MAX_FAIL
  · rw [if_pos h]
    refine ⟨rfl, rfl, fun h0 => h0, fun _ => ⟨rfl, rfl⟩, fun h2 => ?_, fun _ => ⟨rfl, rfl⟩⟩
    simp only [MAX_FAIL] at h h2
    omega
  · rw [if_neg h]
    refine ⟨rfl, rfl, fun h0 => h0, fun h2 => absurd h2 h, fun _ => ⟨rfl, rfl⟩, fun h4 => ?_⟩
    simp only [MAX_FAIL] at h
    omega

/-- A cleared frame buffer checked at time 100 with four failures on record. -/
theorem lockout_threshold_witness :
    decoded bits_zero ≠ secret ∧ (4 : Int) ≠ INT_MAX ∧
    (check_password 100 ⟨bits_zero, 32, 4, 0, 0, 1, sentinel⟩).1.fail_count = 5 ∧
    (check_password 100 ⟨bits_zero, 32, 4, 0, 0, 1, sentinel⟩).1.lock_until = 130 :=
  ⟨by decide, by decide,
    (lockout_threshold 100 ⟨bits_zero, 32, 4, 0, 0, 1, sentinel⟩ (by decide) (by decide)).1,
    ((lockout_threshold 100 ⟨bits_zero, 32, 4, 0, 0, 1, sentinel⟩ (by decide) (by decide)).2.2.2.2.2
      rfl).2⟩


/-- A frame that does not decode to the secret, received from the searching
state: the count goes up by one and, from `MAX_FAIL` on, the lock is set anew. -/
theorem wrong_frame (s : RxState) (hs : s.synced = 0) (hw : s.sync_buf = sync_zero)
    (hu : s.unlocked = 0) (hfc : s.fail_count ≠ INT_MAX) (ns8 pre : List Notif) (n : Notif)
    (hrd : ns8.map (fun n => n.rd) =
      [some 49, some 48, some 49, some 48, some 49, some 48, some 49, some 48])
    (hok8 : ∀ m ∈ ns8, s.lock_until ≤ m.now)
    (hlen : pre.length = 31)
    (hok : ∀ m ∈ pre ++ [n], s.lock_until ≤ m.now ∧ m.rd.isSome = true)
    (hbad : decoded (bits_of (pre ++ [n])) ≠ secret) :
    rx_run s (ns8 ++ (pre ++ [n])) =
      { s with fail_count := s.fail_count + 1,
               lock_until := if s.fail_count + 1 ≥ MAX_FAIL then n.now_check + LOCK_TIME_SEC
                             else s.lock_until,
               bit_index := 0, bits := bits_zero, synced := 0, sync_buf := sync_zero } ∧
    outcome_of ((rx_trace s (ns8 ++ (pre ++ [n]))).getD 39 []) =
      some (if s.fail_count + 1 ≥ MAX_FAIL then .lock else .deny) := by
  obtain ⟨_, _, r3, r4⟩ := received_frame s hs hw hu ns8 pre n hrd hok8 hlen hok
  have hprebits : (bits_of pre).length = 31 := by
    rw [bits_of_length pre (fun m hm => (hok m (List.mem_append_left _ hm)).2), hlen]
  have hcp := check_password_wrong n.now_check
    { s with synced := 1, bit_index := 32, bits := bits_of (pre ++ [n]), sync_buf := sentinel }
    hbad
  simp only [int_incr_eq _ hfc] at hcp
  constructor
  · rw [r3, hcp]
    by_cases h : s.fail_count + 1 ≥ MAX_FAIL
    · rw [if_pos h, if_pos h]
    · rw [if_neg h, if_neg h]
  · rw [r4, ← List.append_assoc, List.getD_eq_getElem?_getD,
      List.getElem?_append_right (by simp [hprebits])]
    simp only [List.length_append, List.length_cons, List.length_nil, List.length_map,
      List.enum_length, hprebits]
    simp only [Nat.reduceAdd, Nat.sub_self, List.getElem?_cons_zero, Option.getD_some]
    rw [hcp]
    by_cases h : s.fail_count + 1 ≥ MAX_FAIL
    · rw [if_pos h, if_pos h]; rfl
    · rw [if_neg h, if_neg h]; rfl

set_option maxRecDepth 1000000 in
/-- C4, as the claim states it, fails. A receiver with four failures gets the
frame 0000 at time 100 and is locked until 130; at time 131 it gets 0000 again.
The second evaluation is not a DENY: it prints LOCKED and moves `lock_until`
to 161, with `fail_count` 6. -/
theorem deny_after_expiry_counterexample :
    (rx_run ⟨bits_zero, 0, 4, 0, 0, 0, sync_zero⟩ (Tx.frame_at [48, 48, 48, 48] 100)).fail_count = 5 ∧
    (rx_run ⟨bits_zero, 0, 4, 0, 0, 0, sync_zero⟩ (Tx.frame_at [48, 48, 48, 48] 100)).lock_until
      = 130 ∧
    outcome_of ((rx_trace ⟨bits_zero, 0, 4, 0, 0, 0, sync_zero⟩
      (Tx.frame_at [48, 48, 48, 48] 100)).getD 39 []) = some .lock ∧
    ¬ (outcome_of ((rx_trace
          (rx_run ⟨bits_zero, 0, 4, 0, 0, 0, sync_zero⟩ (Tx.frame_at [48, 48, 48, 48] 100))
          (Tx.frame_at [48, 48, 48, 48] 131)).getD 39 []) = some .deny ∧
       (rx_run (rx_run ⟨bits_zero, 0, 4, 0, 0, 0, sync_zero⟩ (Tx.frame_at [48, 48, 48, 48] 100))
          (Tx.frame_at [48, 48, 48, 48] 131)).lock_until = 130) ∧
    outcome_of ((rx_trace
        (rx_run ⟨bits_zero, 0, 4, 0, 0, 0, sync_zero⟩ (Tx.frame_at [48, 48, 48, 48] 100))
        (Tx.frame_at [48, 48, 48, 48] 131)).getD 39 []) = some .lock ∧
    (rx_run (rx_run ⟨bits_zero, 0, 4, 0, 0, 0, sync_zero⟩ (Tx.frame_at [48, 48, 48, 48] 100))
        (Tx.frame_at [48, 48, 48, 48] 131)).lock_until = 161 ∧
    (rx_run (rx_run ⟨bits_zero, 0, 4, 0, 0, 0, sync_zero⟩ (Tx.frame_at [48, 48, 48, 48] 100))
        (Tx.frame_at [48, 48, 48, 48] 131)).fail_count = 6 := by
  have h1 : rx_run ⟨bits_zero, 0, 4, 0, 0, 0, sync_zero⟩ (Tx.frame_at [48, 48, 48, 48] 100)
      = ⟨bits_zero, 0, 5, 130, 0, 0, sync_zero⟩ := by decide
  have h2 : rx_run ⟨bits_zero, 0, 5, 130, 0, 0, sync_zero⟩ (Tx.frame_at [48, 48, 48, 48] 131)
      = ⟨bits_zero, 0, 6, 161, 0, 0, sync_zero⟩ := by decide
  have h3 : outcome_of ((rx_trace ⟨bits_zero, 0, 4, 0, 0, 0, sync_zero⟩
      (Tx.frame_at [48, 48, 48, 48] 100)).getD 39 []) = some .lock := by decide
  have h4 : outcome_of ((rx_trace ⟨bits_zero, 0, 5, 130, 0, 0, sync_zero⟩
      (Tx.frame_at [48, 48, 48, 48] 131)).getD 39 []) = some .lock := by decide
  rw [h1, h2, h4]
  exact ⟨rfl, rfl, h3, by decide, rfl, rfl, rfl⟩


/-- C4, amended. A receiver in the searching state with `fail_count = 4` gets a
frame `a` that does not decode to the secret: the evaluation is a LOCK, with
`fail_count` 5 and `lock_until` 30 seconds after the evaluation. When it then
gets, at times that are not before that `lock_until`, a second frame `b` that
does not decode to the secret, the evaluation is a LOCK again: `fail_count`
becomes 6 and `lock_until` is set to 30 seconds after the second evaluation. -/
theorem relock_after_expiry (s : RxState) (hs : s.synced = 0) (hw : s.sync_buf = sync_zero)
    (hu : s.unlocked = 0) (h4 : s.fail_count = 4)
    (a8 apre : List Notif) (an : Notif)
    (hard : a8.map (fun n => n.rd) =
      [some 49, some 48, some 49, some 48, some 49, some 48, some 49, some 48])
    (ha8 : ∀ m ∈ a8, s.lock_until ≤ m.now) (halen : apre.length = 31)
    (haok : ∀ m ∈ apre ++ [an], s.lock_until ≤ m.now ∧ m.rd.isSome = true)
    (habad : decoded (bits_of (apre ++ [an])) ≠ secret)
    (b8 bpre : List Notif) (bn : Notif)
    (hbrd : b8.map (fun n => n.rd) =
      [some 49, some 48, some 49, some 48, some 49, some 48, some 49, some 48])
    (hb8 : ∀ m ∈ b8, an.now_check + LOCK_TIME_SEC ≤ m.now) (hblen : bpre.length = 31)
    (hbok : ∀ m ∈ bpre ++ [bn], an.now_check + LOCK_TIME_SEC ≤ m.now ∧ m.rd.isSome = true)
    (hbbad : decoded (bits_of (bpre ++ [bn])) ≠ secret) :
    outcome_of ((rx_trace s (a8 ++ (apre ++ [an]))).getD 39 []) = some .lock ∧
    (rx_run s (a8 ++ (apre ++ [an]))).fail_count = 5 ∧
    (rx_run s (a8 ++ (apre ++ [an]))).lock_until = an.now_check + LOCK_TIME_SEC ∧
    outcome_of ((rx_trace (rx_run s (a8 ++ (apre ++ [an]))) (b8 ++ (bpre ++ [bn]))).getD 39 [])
      = some .lock ∧
    (rx_run (rx_run s (a8 ++ (apre ++ [an]))) (b8 ++ (bpre ++ [bn]))).fail_count = 6 ∧
    (rx_run (rx_run s (a8 ++ (apre ++ [an]))) (b8 ++ (bpre ++ [bn]))).lock_until
      = bn.now_check + LOCK_TIME_SEC := by
  have hfc : s.fail_count ≠ INT_MAX := by rw [h4]; decide
  obtain ⟨a1, a2⟩ := wrong_frame s hs hw hu hfc a8 apre an hard ha8 halen haok habad
  have hge : s.fail_count + 1 ≥ MAX_FAIL := by rw [h4]; decide
  rw [if_pos hge] at a1 a2
  rw [a1]
  have hfc2 : s.fail_count + 1 ≠ INT_MAX := by rw [h4]; decide
  obtain ⟨b1, b2⟩ := wrong_frame
    { s with fail_count := s.fail_count + 1, lock_until := an.now_check + LOCK_TIME_SEC,
             bit_index := 0, bits := bits_zero, synced := 0, sync_buf := sync_zero }
    rfl rfl hu hfc2 b8 bpre bn hbrd hb8 hblen hbok hbbad
  have hge2 : s.fail_count + 1 + 1 ≥ MAX_FAIL := by rw [h4]; decide
  simp only [if_pos hge2] at b1 b2
  rw [b1, b2]
  refine ⟨a2, ?_, rfl, rfl, ?_, rfl⟩
  · simp [h4]
  · simp [h4]

set_option maxRecDepth 1000000 in
/-- The frame 0000 at time 100, then the frame 0000 at time 131. -/
theorem relock_after_expiry_witness :
    (∀ m ∈ (Tx.frame_at [48, 48, 48, 48] 131).take 8, (100 : Int) + LOCK_TIME_SEC ≤ m.now) ∧
    decoded (bits_of (((Tx.frame_at [48, 48, 48, 48] 131).drop 8).take 31 ++ [⟨131, some 48, 131⟩]))
      ≠ secret ∧
    (rx_run (rx_run ⟨bits_zero, 0, 4, 0, 0, 0, sync_zero⟩
        ((Tx.frame_at [48, 48, 48, 48] 100).take 8 ++
          (((Tx.frame_at [48, 48, 48, 48] 100).drop 8).take 31 ++ [⟨100, some 48, 100⟩])))
      ((Tx.frame_at [48, 48, 48, 48] 131).take 8 ++
          (((Tx.frame_at [48, 48, 48, 48] 131).drop 8).take 31 ++ [⟨131, some 48, 131⟩]))).lock_until
      = 131 + LOCK_TIME_SEC :=
  ⟨by decide, by decide,
    (relock_after_expiry ⟨bits_zero, 0, 4, 0, 0, 0, sync_zero⟩ rfl rfl rfl rfl
      ((Tx.frame_at [48, 48, 48, 48] 100).take 8)
      (((Tx.frame_at [48, 48, 48, 48] 100).drop 8).take 31) ⟨100, some 48, 100⟩
      (by decide) (by decide) (by decide) (by decide) (by decide)
      ((Tx.frame_at [48, 48, 48, 48] 131).take 8)
      (((Tx.frame_at [48, 48, 48, 48] 131).drop 8).take 31) ⟨131, some 48, 131⟩
      (by decide) (by decide) (by decide) (by decide) (by decide)).2.2.2.2.2⟩


theorem handler_locked (s : RxState) (n : Notif) (h : n.now < s.lock_until) :
    sigio_handler n s =
      ({ s with bit_index := 0, bits := bits_zero, synced := 0, sync_buf := sync_zero }, []) := by
  unfold sigio_handler
  rw [if_pos (Or.inl h)]

theorem locked_run (ns : List Notif) (s : RxState) (hne : ns ≠ [])
    (h : ∀ m ∈ ns, m.now < s.lock_until) :
    rx_run s ns =
      { s with bit_index := 0, bits := bits_zero, synced := 0, sync_buf := sync_zero } ∧
    rx_trace s ns = List.replicate ns.length [] := by
  induction ns generalizing s with
  | nil => exact absurd rfl hne
  | cons n ns ih =>
    have hn := handler_locked s n (h n (by simp))
    simp only [rx_run, rx_trace, hn]
    by_cases hns : ns = []
    · subst hns
      simp [rx_run, rx_trace]
    · have h2 := ih { s with bit_index := 0, bits := bits_zero, synced := 0, sync_buf := sync_zero }
        hns (fun m hm => h m (List.mem_cons_of_mem _ hm))
      rw [h2.1, h2.2]
      simp [List.replicate_succ]

/-- C5 (bits are dropped during the lockout window). For every receiver state:
(1) a notification at a time before `lock_until` prints nothing, gives the
same result whatever the data line would have shown (nothing is sampled), and
changes only `synced`, `bit_index`, the frame buffer and the sync window, which
become 0 and all-zero, leaving `fail_count`, `lock_until` and `unlocked` as
they were; (2) after any non-empty sequence of notifications that all arrive
before `lock_until` the receiver is in that same fresh UNSYNCED state, nothing
was printed, and whatever follows runs as from the fresh state, so that no bit
of the window takes part in a later sync match or frame; (3) when the state
is the one a `check_password` call left, as it is when a lockout begins, this
holds for the empty sequence too. -/
theorem lockout_drops_bits (s : RxState) :
    (∀ n : Notif, n.now < s.lock_until →
      (sigio_handler n s).2 = [] ∧
      (∀ (r : Option Nat) (c : Int), sigio_handler ⟨n.now, r, c⟩ s = sigio_handler n s) ∧
      (sigio_handler n s).1.fail_count = s.fail_count ∧
      (sigio_handler n s).1.lock_until = s.lock_until ∧
      (sigio_handler n s).1.unlocked = s.unlocked ∧
      fresh (sigio_handler n s).1) ∧
    (∀ ns : List Notif, ns ≠ [] → (∀ m ∈ ns, m.now < s.lock_until) →
      (rx_run s ns).fail_count = s.fail_count ∧
      (rx_run s ns).lock_until = s.lock_until ∧
      (rx_run s ns).unlocked = s.unlocked ∧
      fresh (rx_run s ns) ∧
      (∀ evs ∈ rx_trace s ns, evs = []) ∧
      (∀ after : List Notif,
        rx_run s (ns ++ after) =
          rx_run { s with bit_index := 0, bits := bits_zero, synced := 0, sync_buf := sync_zero }
            after ∧
        rx_trace s (ns ++ after) = List.replicate ns.length [] ++
          rx_trace { s with bit_index := 0, bits := bits_zero, synced := 0, sync_buf := sync_zero }
            after)) ∧
    (∀ (t : Int) (s0 : RxState) (ns : List Notif), s = (check_password t s0).1 →
      (∀ m ∈ ns, m.now < s.lock_until) → fresh (rx_run s ns)) := by
  refine ⟨?_, ?_, ?_⟩
  · intro n hn
    rw [handler_locked s n hn]
    refine ⟨rfl, ?_, rfl, rfl, rfl, ⟨rfl, rfl, rfl, rfl⟩⟩
    intro r c
    exact handler_locked s ⟨n.now, r, c⟩ hn
  · intro ns hne h
    obtain ⟨h1, h2⟩ := locked_run ns s hne h
    refine ⟨?_, ?_, ?_, ?_, ?_, ?_⟩
    · rw [h1]
    · rw [h1]
    · rw [h1]
    · rw [h1]; exact ⟨rfl, rfl, rfl, rfl⟩
    · intro evs hevs
      rw [h2] at hevs
      exact List.eq_of_mem_replicate hevs
    · intro after
      rw [rx_run_append, rx_trace_append, h1, h2]
      exact ⟨rfl, rfl⟩
  · intro t s0 ns hs h
    by_cases hne : ns = []
    · subst hne
      rw [hs]
      exact ⟨rfl, rfl, rfl, rfl⟩
    · rw [(locked_run ns s hne h).1]
      exact ⟨rfl, rfl, rfl, rfl⟩

/-- A receiver locked until time 130, in the middle of a frame, gets three
notifications at times 100 to 102. -/
theorem lockout_drops_bits_witness :
    (∀ m ∈ [(⟨100, some 49, 100⟩ : Notif), ⟨101, some 48, 101⟩, ⟨102, some 49, 102⟩],
      m.now < (130 : Int)) ∧
    fresh (rx_run ⟨[1, 0, 1], 3, 5, 130, 0, 1, sentinel⟩
      [⟨100, some 49, 100⟩, ⟨101, some 48, 101⟩, ⟨102, some 49, 102⟩]) ∧
    (sigio_handler ⟨100, some 49, 100⟩ ⟨[1, 0, 1], 3, 5, 130, 0, 1, sentinel⟩).2 = [] :=
  ⟨by decide,
    ((lockout_drops_bits ⟨[1, 0, 1], 3, 5, 130, 0, 1, sentinel⟩).2.1
      [⟨100, some 49, 100⟩, ⟨101, some 48, 101⟩, ⟨102, some 49, 102⟩] (by decide)
      (by decide)).2.2.2.1,
    ((lockout_drops_bits ⟨[1, 0, 1], 3, 5, 130, 0, 1, sentinel⟩).1 ⟨100, some 49, 100⟩
      (by decide)).1⟩

end Rx

namespace Tx

theorem c_str_of_nonzero (l : List Nat) (h : ∀ c ∈ l, c ≠ 0) : Rx.c_str l = l := by
  unfold Rx.c_str
  rw [List.takeWhile_eq_self_iff]
  intro x hx
  simpa using h x hx

theorem strip_nonzero (raw : List Nat) : ∀ c ∈ strip_newline raw, c ≠ 0 := by
  intro c hc
  unfold strip_newline at hc
  have h1 : c ∈ Rx.c_str raw := (List.takeWhile_prefix _).subset hc
  unfold Rx.c_str at h1
  simpa using List.mem_takeWhile_imp h1

theorem c_str_strip (raw : List Nat) : Rx.c_str (strip_newline raw) = strip_newline raw :=
  c_str_of_nonzero _ (strip_nonzero raw)

/-- The test `strlen(input) != 4 || strspn(input, "0123456789") != 4` fails
exactly for four decimal digits. -/
theorem invalid_iff (raw : List Nat) :
    (strlen (strip_newline raw) ≠ 4 ∨ strspn_digits (strip_newline raw) ≠ 4) ↔
      ¬ ((strip_newline raw).length = 4 ∧ ∀ c ∈ strip_newline raw, 48 ≤ c ∧ c ≤ 57) := by
  unfold strlen strspn_digits
  rw [c_str_strip]
  generalize strip_newline raw = l
  constructor
  · rintro (h | h) ⟨h4, hd⟩
    · exact h h4
    · apply h
      have : l.takeWhile (fun c => decide (48 ≤ c ∧ c ≤ 57)) = l := by
        rw [List.takeWhile_eq_self_iff]
        intro x hx
        simpa using hd x hx
      rw [this, h4]
  · intro h
    by_cases h4 : l.length = 4
    · right
      intro hs
      apply h
      refine ⟨h4, ?_⟩
      have hpre := List.takeWhile_prefix (fun c => decide (48 ≤ c ∧ c ≤ 57)) (l := l)
      have heq : l.takeWhile (fun c => decide (48 ≤ c ∧ c ≤ 57)) = l :=
        hpre.eq_of_length (by rw [hs, h4])
      intro c hc
      rw [← heq] at hc
      simpa using List.mem_takeWhile_imp hc
    · left; exact h4

/-- C9 (malformed transmitter input). Let `raw` be what `fgets` stored and
`input` the line without its newline. If the pass is not a lockout wait, `input`
is not the text exit and is not exactly four decimal digits (and `fail_count`
is not at `INT_MAX`), then one pass of the loop fills `to_send` with 0000,
writes the start sequence and the four characters of 0000, so that the
receiver side samples the 40 bits of 0xAA and 0000, most significant bit
first, adds exactly 1 to `fail_count`, and ends neither in `break` nor in the
CORRECT branch. -/
theorem malformed_input (now now_lock : Int) (raw : List Nat) (s : TxState)
    (hnl : s.lock_until ≤ now)
    (hexit : strip_newline raw ≠ [101, 120, 105, 116])
    (hbad : ¬ ((strip_newline raw).length = 4 ∧ ∀ c ∈ strip_newline raw, 48 ≤ c ∧ c ≤ 57))
    (hfc : s.fail_count ≠ Rx.INT_MAX) :
    (tx_iteration now (some raw) now_lock s).to_send = some str_0000 ∧
    (tx_iteration now (some raw) now_lock s).wire = send_start_sequence ++ send_chars str_0000 ∧
    (∀ lvl, (sampled lvl 0 (tx_iteration now (some raw) now_lock s).wire).map Rx.sample_bit =
      [1, 0, 1, 0, 1, 0, 1, 0,  0, 0, 1, 1, 0, 0, 0, 0,  0, 0, 1, 1, 0, 0, 0, 0,
       0, 0, 1, 1, 0, 0, 0, 0,  0, 0, 1, 1, 0, 0, 0, 0]) ∧
    (tx_iteration now (some raw) now_lock s).state.fail_count = s.fail_count + 1 ∧
    (tx_iteration now (some raw) now_lock s).terminated = false ∧
    (tx_iteration now (some raw) now_lock s).correct = false := by
  have h1 : ¬ now < s.lock_until := not_lt.2 hnl
  have h2 : Rx.strcmp_eq (strip_newline raw) str_exit = false := by
    unfold Rx.strcmp_eq
    rw [c_str_strip]
    have : Rx.c_str str_exit = [101, 120, 105, 116] := by decide
    rw [this]
    simpa using hexit
  have h3 : decide (strlen (strip_newline raw) ≠ 4 ∨ strspn_digits (strip_newline raw) ≠ 4)
      = true := by
    simpa using (invalid_iff raw).2 hbad
  have h4 : Rx.strcmp_eq str_0000 str_1234 = false := by decide
  have h5 : Rx.strcmp_eq str_0000 str_0000 = true := by decide
  have hw : (tx_iteration now (some raw) now_lock s).wire
      = send_start_sequence ++ send_chars str_0000 := by
    unfold tx_iteration
    simp [h1, h2, h3, h4]
  refine ⟨?_, hw, ?_, ?_, ?_, ?_⟩
  · unfold tx_iteration
    simp [h1, h2, h3, h4]
  · intro lvl
    rw [hw, sampled_frame, map_sample_char _ (frame_bits_le _)]
    decide
  · unfold tx_iteration
    simp [h1, h2, h3, h4, h5, Rx.int_incr, hfc]
  · unfold tx_iteration
    simp [h1, h2, h3, h4]
  · unfold tx_iteration
    simp [h1, h2, h3, h4]

/-- The line 12a4. -/
theorem malformed_input_witness :
    strip_newline [49, 50, 97, 52, 10, 0] ≠ [101, 120, 105, 116] ∧
    ¬ ((strip_newline [49, 50, 97, 52, 10, 0]).length = 4 ∧
        ∀ c ∈ strip_newline [49, 50, 97, 52, 10, 0], 48 ≤ c ∧ c ≤ 57) ∧
    (tx_iteration 10 (some [49, 50, 97, 52, 10, 0]) 12 ⟨2, 0⟩).to_send = some str_0000 ∧
    (tx_iteration 10 (some [49, 50, 97, 52, 10, 0]) 12 ⟨2, 0⟩).state.fail_count = 2 + 1 :=
  ⟨by decide, by decide,
    (malformed_input 10 12 [49, 50, 97, 52, 10, 0] ⟨2, 0⟩ (by decide) (by decide) (by decide)
      (by decide)).1,
    (malformed_input 10 12 [49, 50, 97, 52, 10, 0] ⟨2, 0⟩ (by decide) (by decide) (by decide)
      (by decide)).2.2.2.1⟩


/-- A line of exactly four decimal digits is sent as it is: the pass writes
the start sequence and the four characters, and it ends the program exactly
when the digits are 1234. -/
theorem valid_input_wire (now now_lock : Int) (raw : List Nat) (s : TxState)
    (hnl : s.lock_until ≤ now) (h4 : (strip_newline raw).length = 4)
    (hd : ∀ c ∈ strip_newline raw, 48 ≤ c ∧ c ≤ 57) :
    (tx_iteration now (some raw) now_lock s).wire =
      send_start_sequence ++ send_chars (strip_newline raw) ∧
    (tx_iteration now (some raw) now_lock s).to_send = some (strip_newline raw ++ [0]) ∧
    ((tx_iteration now (some raw) now_lock s).terminated = true ↔
      strip_newline raw = [49, 50, 51, 52]) := by
  have h1 : ¬ now < s.lock_until := not_lt.2 hnl
  have hcs := c_str_strip raw
  have h3 : decide (strlen (strip_newline raw) ≠ 4 ∨ strspn_digits (strip_newline raw) ≠ 4)
      = false := by
    have := (invalid_iff raw).not.2 (not_not.2 ⟨h4, hd⟩)
    simpa using this
  generalize hin : strip_newline raw = input at *
  obtain ⟨a, b, c, d, hinput⟩ : ∃ a b c d, input = [a, b, c, d] := by
    match input, h4 with
    | [a, b, c, d], _ => exact ⟨a, b, c, d, rfl⟩
  subst hinput
  simp only [List.mem_cons, List.mem_singleton, forall_eq_or_imp, forall_eq, List.not_mem_nil,
    false_imp_iff, implies_true, and_true] at hd
  obtain ⟨⟨la, ua⟩, ⟨lb, ub⟩, ⟨lc, uc⟩, ⟨ld, ud⟩⟩ := hd
  have h2 : Rx.strcmp_eq [a, b, c, d] str_exit = false := by
    unfold Rx.strcmp_eq
    rw [hcs]
    have : Rx.c_str str_exit = [101, 120, 105, 116] := by decide
    rw [this]
    simp only [beq_eq_false_iff_ne, ne_eq, List.cons.injEq, and_true, not_and]
    intro h; omega
  have hts : Rx.c_str ([a, b, c, d] ++ [0]) = [a, b, c, d] := by
    have ha : a ≠ 0 := by omega
    have hb : b ≠ 0 := by omega
    have hc : c ≠ 0 := by omega
    have hd : d ≠ 0 := by omega
    simp [Rx.c_str, List.takeWhile_cons, ha, hb, hc, hd]
  have hcmp : Rx.strcmp_eq ([a, b, c, d] ++ [0]) str_1234 = decide ([a, b, c, d] = [49, 50, 51, 52]) := by
    unfold Rx.strcmp_eq
    rw [hts]
    have : Rx.c_str str_1234 = [49, 50, 51, 52] := by decide
    rw [this]
    by_cases h : [a, b, c, d] = [49, 50, 51, 52]
    · simp [h]
    · simp only [h, decide_False, beq_eq_false_iff_ne, ne_eq, not_false_eq_true]
  have hsend : send_chars ([a, b, c, d] ++ [0]) = send_chars [a, b, c, d] := by
    simp [send_chars, List.range, List.range.loop]
  unfold tx_iteration
  simp only [hin, h1, if_false, h2, h3, hcs, Bool.false_eq_true]
  rw [hcmp, hsend]
  by_cases h : [a, b, c, d] = [49, 50, 51, 52]
  · simp [h]
  · simp [h]

end Tx

namespace Driver

theorem find_range_first (p : Nat → Bool) (n i : Nat) (hi : i < n) (hp : p i = true)
    (hlt : ∀ j, j < i → p j = false) : (List.range n).find? p = some i := by
  induction n with
  | zero => omega
  | succ n ih =>
    rw [List.range_succ, List.find?_append]
    by_cases hin : i < n
    · rw [ih hin]; rfl
    · have hieq : i = n := by omega
      subst hieq
      have hnone : (List.range i).find? p = none := by
        rw [List.find?_eq_none]
        intro x hx
        rw [List.mem_range] at hx
        simp [hlt x hx]
      rw [hnone]
      simp [hp]

theorem find_gpio_index_cases (tbl : List (Option gpio_entry)) (bcm : Int) :
    (find_gpio_index tbl bcm = -1 ∧ ∀ i, i < MAX_GPIO → slot_has tbl bcm i = false) ∨
    (∃ i, i < MAX_GPIO ∧ find_gpio_index tbl bcm = (i : Int) ∧ slot_has tbl bcm i = true) := by
  unfold find_gpio_index
  cases h : (List.range MAX_GPIO).find? (slot_has tbl bcm) with
  | none =>
    left
    refine ⟨rfl, ?_⟩
    intro i hi
    rw [List.find?_eq_none] at h
    simpa using h i (List.mem_range.2 hi)
  | some i =>
    right
    exact ⟨i, List.mem_range.1 (List.mem_of_find?_eq_some h), rfl, List.find?_some h⟩

theorem find_gpio_index_neg (tbl : List (Option gpio_entry)) (bcm : Int) :
    find_gpio_index tbl bcm < 0 ↔ ∀ i, i < MAX_GPIO → slot_has tbl bcm i = false := by
  rcases find_gpio_index_cases tbl bcm with ⟨h1, h2⟩ | ⟨i, hi, h1, h2⟩
  · rw [h1]; simp; exact h2
  · rw [h1]
    constructor
    · intro h; omega
    · intro h; rw [h i hi] at h2; cases h2

theorem find_gpio_index_first (tbl : List (Option gpio_entry)) (bcm : Int) (i : Nat)
    (hi : i < MAX_GPIO) (hp : slot_has tbl bcm i = true)
    (hlt : ∀ j, j < i → slot_has tbl bcm j = false) : find_gpio_index tbl bcm = (i : Int) := by
  unfold find_gpio_index
  rw [find_range_first _ _ i hi hp hlt]

theorem first_free_cases (tbl : List (Option gpio_entry)) :
    (first_free tbl = MAX_GPIO ∧ ∀ i, i < MAX_GPIO → (tbl.getD i none).isNone = false) ∨
    (first_free tbl < MAX_GPIO ∧ (tbl.getD (first_free tbl) none).isNone = true) := by
  unfold first_free
  cases h : (List.range MAX_GPIO).find? (fun i => (tbl.getD i none).isNone) with
  | none =>
    left
    refine ⟨rfl, ?_⟩
    intro i hi
    rw [List.find?_eq_none] at h
    simpa only [Bool.not_eq_true] using h i (List.mem_range.2 hi)
  | some i =>
    right
    exact ⟨List.mem_range.1 (List.mem_of_find?_eq_some h),
      List.find?_some (p := fun i => (tbl.getD i none).isNone) h⟩

theorem first_free_first (tbl : List (Option gpio_entry)) (i : Nat) (hi : i < MAX_GPIO)
    (hp : (tbl.getD i none).isNone = true)
    (hlt : ∀ j, j < i → (tbl.getD j none).isNone = false) : first_free tbl = i := by
  unfold first_free
  rw [find_range_first _ _ i hi hp hlt]
  rfl

/-- What a successful `export_store` did. -/
theorem export_ok_inv {HW : Type} (G : GpioLib HW) (env : ExportEnv) (count : Nat)
    (k : Kernel HW) (c : Nat) (h : (export_store G env count k).1 = .ok c) :
    ∃ bcm addr desc dev, env.kstrtoint = some bcm ∧ env.kzalloc = some addr ∧
      G.gpio_to_desc k.hw (GPIOCHIP_BASE + bcm) = some desc ∧ env.device_create = .ok dev ∧
      find_gpio_index k.gpio_table bcm < 0 ∧ first_free k.gpio_table < MAX_GPIO ∧ c = count ∧
      (export_store G env count k).2 =
        { k with hw := G.gpiod_direction_input k.hw desc,
                 devices := (first_free k.gpio_table, bcm) :: k.devices,
                 gpio_table := k.gpio_table.set (first_free k.gpio_table)
                   (some { addr := addr, bcm_num := bcm, desc := desc, dev := dev, irq_num := 0,
                           irq_enabled := false, async_queue := [] }) } := by
  unfold export_store at h ⊢
  cases hk : env.kstrtoint with
  | none => simp [hk] at h
  | some bcm =>
    simp only [hk] at h ⊢
    by_cases hf : find_gpio_index k.gpio_table bcm ≥ 0
    · simp [hf] at h
    · simp only [hf, if_false] at h ⊢
      by_cases hfree : first_free k.gpio_table = MAX_GPIO
      · simp [hfree] at h
      · simp only [hfree, if_false] at h ⊢
        cases hz : env.kzalloc with
        | none => simp [hz] at h
        | some addr =>
          simp only [hz] at h ⊢
          cases hd : G.gpio_to_desc k.hw (GPIOCHIP_BASE + bcm) with
          | none => simp [hd] at h
          | some desc =>
            simp only [hd] at h ⊢
            cases hdev : env.device_create with
            | error e => simp [hdev] at h
            | ok dev =>
              simp only [hdev] at h ⊢
              refine ⟨bcm, addr, desc, dev, rfl, rfl, hd, rfl, by omega, ?_, ?_, rfl⟩
              · rcases first_free_cases k.gpio_table with ⟨h1, _⟩ | ⟨h1, _⟩
                · exact absurd h1 hfree
                · exact h1
              · simp at h; exact h.symm

/-- What `export_store` does when nothing stands in its way. -/
theorem export_ok {HW : Type} (G : GpioLib HW) (env : ExportEnv) (count : Nat) (k : Kernel HW)
    (bcm : Int) (addr : Nat) (desc : Int) (dev : Nat)
    (hk : env.kstrtoint = some bcm) (hz : env.kzalloc = some addr)
    (hd : G.gpio_to_desc k.hw (GPIOCHIP_BASE + bcm) = some desc)
    (hdev : env.device_create = .ok dev)
    (hf : find_gpio_index k.gpio_table bcm < 0) (hfree : first_free k.gpio_table < MAX_GPIO) :
    export_store G env count k =
      (.ok count,
        { k with hw := G.gpiod_direction_input k.hw desc,
                 devices := (first_free k.gpio_table, bcm) :: k.devices,
                 gpio_table := k.gpio_table.set (first_free k.gpio_table)
                   (some { addr := addr, bcm_num := bcm, desc := desc, dev := dev, irq_num := 0,
                           irq_enabled := false, async_queue := [] }) }) := by
  unfold export_store
  have h1 : ¬ find_gpio_index k.gpio_table bcm ≥ 0 := by omega
  have h2 : ¬ first_free k.gpio_table = MAX_GPIO := by omega
  simp only [hk, hz, hd, hdev, h1, h2, if_false]


theorem slot_has_iff (tbl : List (Option gpio_entry)) (bcm : Int) (i : Nat) :
    slot_has tbl bcm i = true ↔ ∃ e, tbl.getD i none = some e ∧ e.bcm_num = bcm := by
  unfold slot_has
  cases h : tbl.getD i none with
  | none => simp
  | some e => simp

theorem getD_set_self (tbl : List (Option gpio_entry)) (i : Nat) (v : Option gpio_entry)
    (h : i < tbl.length) : (tbl.set i v).getD i none = v := by
  simp [List.getElem?_set_self h]

theorem getD_set_ne (tbl : List (Option gpio_entry)) (i j : Nat) (v : Option gpio_entry)
    (h : i ≠ j) : (tbl.set i v).getD j none = tbl.getD j none := by
  simp [List.getElem?_set_ne h]

theorem unexport_ok_inv {HW : Type} (parsed : Option Int) (count : Nat) (k : Kernel HW) (c : Nat)
    (h : (unexport_store parsed count k).1 = .ok c) :
    ∃ bcm i, parsed = some bcm ∧ i < MAX_GPIO ∧ find_gpio_index k.gpio_table bcm = (i : Int) ∧
      slot_has k.gpio_table bcm i = true ∧ c = count ∧
      (unexport_store parsed count k).2 =
        { k with devices := k.devices.filter (fun d => d.1 != i),
                 gpio_table := k.gpio_table.set i none } := by
  unfold unexport_store at h ⊢
  cases parsed with
  | none => simp at h
  | some bcm =>
    simp only at h ⊢
    rcases find_gpio_index_cases k.gpio_table bcm with ⟨h1, _⟩ | ⟨i, hi, h1, h2⟩
    · simp [h1] at h
    · have hn : ¬ ((i : Int) < 0) := by omega
      simp only [h1, hn, if_false] at h ⊢
      refine ⟨bcm, i, rfl, hi, h1, h2, ?_, ?_⟩
      · simp at h; exact h.symm
      · simp

theorem table_wf_init : table_wf init_table := by
  refine ⟨by simp [init_table], ?_⟩
  intro i j e1 e2 h1
  simp [init_table, List.getElem?_replicate] at h1
  split at h1 <;> simp at h1

/-- `export_store` keeps the invariant of the table. -/
theorem table_wf_export {HW : Type} (G : GpioLib HW) (env : ExportEnv) (count : Nat)
    (k : Kernel HW) (hwf : table_wf k.gpio_table) :
    table_wf (export_store G env count k).2.gpio_table := by
  cases hr : (export_store G env count k).1 with
  | error e =>
    have : (export_store G env count k).2.gpio_table = k.gpio_table := by
      unfold export_store at hr ⊢
      cases hk : env.kstrtoint with
      | none => rfl
      | some bcm =>
        simp only [hk] at hr ⊢
        split
        · rfl
        · split
          · rfl
          · cases hz : env.kzalloc with
            | none => rfl
            | some addr =>
              simp only
              cases hd : G.gpio_to_desc k.hw (GPIOCHIP_BASE + bcm) with
              | none => rfl
              | some desc =>
                simp only
                cases hdev : env.device_create with
                | error e => rfl
                | ok dev =>
                  rename_i h1 h2
                  simp [h1, h2, hz, hd, hdev] at hr
    rw [this]; exact hwf
  | ok c =>
    obtain ⟨bcm, addr, desc, dev, _, _, _, _, hf, hfree, _, hk⟩ := export_ok_inv G env count k c hr
    rw [hk]
    obtain ⟨hl, hd⟩ := hwf
    refine ⟨by simp [hl], ?_⟩
    intro i j e1 e2 h1 h2 he
    simp only at h1 h2
    rw [find_gpio_index_neg] at hf
    have hff : first_free k.gpio_table < k.gpio_table.length := by rw [hl]; exact hfree
    have key : ∀ (a : Nat) (e : gpio_entry),
        (k.gpio_table.set (first_free k.gpio_table) (some
          { addr := addr, bcm_num := bcm, desc := desc, dev := dev, irq_num := 0,
            irq_enabled := false, async_queue := [] })).getD a none = some e →
        a ≠ first_free k.gpio_table → k.gpio_table.getD a none = some e ∧ a < MAX_GPIO ∧
          e.bcm_num ≠ bcm := by
      intro a e ha hne
      rw [getD_set_ne _ _ _ _ (Ne.symm hne)] at ha
      have ha10 : a < MAX_GPIO := by
        by_contra hcon
        have : k.gpio_table.getD a none = none := by
          simp [List.getElem?_eq_none (by omega : k.gpio_table.length ≤ a)]
        rw [this] at ha; cases ha
      refine ⟨ha, ha10, ?_⟩
      intro hb
      have := hf a ha10
      rw [← Bool.not_eq_true, slot_has_iff] at this
      exact this ⟨e, ha, hb⟩
    by_cases hi : i = first_free k.gpio_table <;> by_cases hj : j = first_free k.gpio_table
    · rw [hi, hj]
    · exfalso
      rw [hi, getD_set_self _ _ _ hff] at h1
      obtain ⟨_, _, hne⟩ := key j e2 h2 hj
      simp only [Option.some.injEq] at h1
      rw [← h1] at he
      exact hne he.symm
    · exfalso
      rw [hj, getD_set_self _ _ _ hff] at h2
      obtain ⟨_, _, hne⟩ := key i e1 h1 hi
      simp only [Option.some.injEq] at h2
      rw [← h2] at he
      exact hne he
    · exact hd i j e1 e2 (key i e1 h1 hi).1 (key j e2 h2 hj).1 he

/-- `unexport_store` keeps the invariant of the table. -/
theorem table_wf_unexport {HW : Type} (parsed : Option Int) (count : Nat) (k : Kernel HW)
    (hwf : table_wf k.gpio_table) : table_wf (unexport_store parsed count k).2.gpio_table := by
  cases hr : (unexport_store parsed count k).1 with
  | error e =>
    have : (unexport_store parsed count k).2 = k := by
      unfold unexport_store at hr ⊢
      cases parsed with
      | none => rfl
      | some bcm =>
        simp only at hr ⊢
        split
        · rfl
        · rename_i h1; simp [h1] at hr
    rw [this]; exact hwf
  | ok c =>
    obtain ⟨bcm, i, _, hi, _, _, _, hk⟩ := unexport_ok_inv parsed count k c hr
    rw [hk]
    obtain ⟨hl, hd⟩ := hwf
    refine ⟨by simp [hl], ?_⟩
    intro a b e1 e2 h1 h2 he
    simp only at h1 h2
    have hil : i < k.gpio_table.length := by rw [hl]; exact hi
    by_cases ha : a = i
    · rw [ha, getD_set_self _ _ _ hil] at h1; cases h1
    by_cases hb : b = i
    · rw [hb, getD_set_self _ _ _ hil] at h2; cases h2
    rw [getD_set_ne _ _ _ _ (Ne.symm ha)] at h1
    rw [getD_set_ne _ _ _ _ (Ne.symm hb)] at h2
    exact hd a b e1 e2 h1 h2 he

theorem entry_at_some (tbl : List (Option gpio_entry)) (p slot : Nat) (e : gpio_entry)
    (h : entry_at tbl p = some (slot, e)) : tbl.getD slot none = some e := by
  unfold entry_at at h
  split at h
  · rename_i i _
    cases hg : tbl.getD i none with
    | none => rw [hg] at h; cases h
    | some e2 =>
      rw [hg] at h
      simp at h
      rw [← h.1, ← h.2]; exact hg
  · cases h

/-- Rewriting the fields of an entry other than its line number keeps the
invariant of the table. -/
theorem table_wf_update (tbl : List (Option gpio_entry)) (slot : Nat) (e e2 : gpio_entry)
    (hs : tbl.getD slot none = some e) (hb : e2.bcm_num = e.bcm_num) (hwf : table_wf tbl) :
    table_wf (tbl.set slot (some e2)) := by
  obtain ⟨hl, hd⟩ := hwf
  refine ⟨by simp [hl], ?_⟩
  have hsl : slot < tbl.length := by
    by_contra hcon
    have : tbl.getD slot none = none := by
      simp [List.getElem?_eq_none (by omega : tbl.length ≤ slot)]
    rw [this] at hs; cases hs
  have key : ∀ (a : Nat) (x : gpio_entry), (tbl.set slot (some e2)).getD a none = some x →
      ∃ y, tbl.getD a none = some y ∧ y.bcm_num = x.bcm_num := by
    intro a x hx
    by_cases ha : a = slot
    · rw [ha, getD_set_self _ _ _ hsl] at hx
      rw [ha]
      exact ⟨e, hs, by rw [← Option.some.inj hx, hb]⟩
    · rw [getD_set_ne _ _ _ _ (Ne.symm ha)] at hx
      exact ⟨x, hx, rfl⟩
  intro i j e1 e3 h1 h3 he
  obtain ⟨y1, hy1, hb1⟩ := key i e1 h1
  obtain ⟨y3, hy3, hb3⟩ := key j e3 h3
  exact hd i j y1 y3 hy1 hy3 (by rw [hb1, hb3, he])

/-- The file operations that write to an entry keep the invariant of the table. -/
theorem table_wf_fops {HW : Type} (G : GpioLib HW) (k : Kernel HW) (hwf : table_wf k.gpio_table)
    (pd filp : Nat) (cmd : Cmd) (request_ok : Bool) (mode : Int) :
    (∀ r, gpio_fops_ioctl G pd cmd request_ok k = some r → table_wf r.2.gpio_table) ∧
    (∀ r, gpio_fops_fasync pd filp mode k = some r → table_wf r.2.gpio_table) ∧
    (∀ r, gpio_fops_release pd filp k = some r → table_wf r.2.gpio_table) := by
  refine ⟨?_, ?_, ?_⟩
  · intro r hr
    unfold gpio_fops_ioctl at hr
    cases he : entry_at k.gpio_table pd with
    | none => rw [he] at hr; cases hr
    | some p =>
      obtain ⟨slot, entry⟩ := p
      have hs := entry_at_some _ _ _ _ he
      rw [he] at hr
      simp only at hr
      cases cmd with
      | GPIO_IOCTL_ENABLE_IRQ =>
        simp only at hr
        split at hr
        · rw [← Option.some.inj hr]; exact hwf
        · split at hr
          · rw [← Option.some.inj hr]; exact hwf
          · split at hr
            · rw [← Option.some.inj hr]; exact hwf
            · rw [← Option.some.inj hr]
              exact table_wf_update _ _ _ _ hs rfl hwf
      | GPIO_IOCTL_DISABLE_IRQ =>
        simp only at hr
        split at hr
        · rw [← Option.some.inj hr]; exact hwf
        · rw [← Option.some.inj hr]
          exact table_wf_update _ _ _ _ hs rfl hwf
      | other n =>
        simp only at hr
        rw [← Option.some.inj hr]; exact hwf
  · intro r hr
    unfold gpio_fops_fasync at hr
    cases he : entry_at k.gpio_table pd with
    | none => rw [he] at hr; cases hr
    | some p =>
      obtain ⟨slot, entry⟩ := p
      have hs := entry_at_some _ _ _ _ he
      rw [he] at hr
      simp only at hr
      rw [← Option.some.inj hr]
      exact table_wf_update _ _ _ _ hs rfl hwf
  · intro r hr
    unfold gpio_fops_release at hr
    cases he : entry_at k.gpio_table pd with
    | none => rw [he] at hr; cases hr
    | some p =>
      obtain ⟨slot, entry⟩ := p
      have hs := entry_at_some _ _ _ _ he
      rw [he] at hr
      simp only at hr
      rw [← Option.some.inj hr]
      exact table_wf_update _ _ _ _ hs rfl hwf


/-- A table whose first slots are taken, in order, and whose other slots are NULL. -/
theorem filled_getD (pre : List gpio_entry) (m i : Nat) :
    (pre.map some ++ List.replicate m none).getD i none = pre[i]? := by
  rw [List.getD_eq_getElem?_getD]
  by_cases h : i < pre.length
  · rw [List.getElem?_append_left (by simpa using h)]
    simp [List.getElem?_eq_getElem h]
  · rw [List.getElem?_append_right (by simpa using h)]
    rw [List.getElem?_eq_none (by omega : pre.length ≤ i)]
    rw [List.getElem?_replicate]
    split <;> rfl

theorem filled_find_neg (pre : List gpio_entry) (m : Nat) (id : Int)
    (h : id ∉ pre.map (fun e => e.bcm_num)) :
    find_gpio_index (pre.map some ++ List.replicate m none) id < 0 := by
  rw [find_gpio_index_neg]
  intro i _
  rw [← Bool.not_eq_true, slot_has_iff, filled_getD]
  rintro ⟨e, he, hb⟩
  apply h
  rw [List.mem_map]
  exact ⟨e, List.getElem?_mem he, hb⟩

theorem filled_first_free (pre : List gpio_entry) (m : Nat) (hm : 0 < m)
    (hlen : pre.length + m = MAX_GPIO) :
    first_free (pre.map some ++ List.replicate m none) = pre.length := by
  apply first_free_first
  · omega
  · rw [filled_getD, List.getElem?_eq_none (Nat.le_refl _)]; rfl
  · intro j hj
    rw [filled_getD, List.getElem?_eq_getElem hj]; rfl

theorem filled_set (pre : List gpio_entry) (m : Nat) (e : gpio_entry) :
    (pre.map some ++ List.replicate (m + 1) none).set pre.length (some e) =
      (pre ++ [e]).map some ++ List.replicate m none := by
  rw [List.set_append_right _ _ (by simp)]
  simp [List.replicate_succ]

/-- Exports of distinct line numbers, not yet in the table, fill the free
slots in order and all succeed while there is room. -/
theorem export_seq_fill {HW : Type} (G : GpioLib HW) (reqs : List (ExportEnv × Nat))
    (ids : List Int) (hreq : List.Forall₂ (fun r id => env_succeeds G r.1 id) reqs ids) :
    ∀ (k : Kernel HW) (pre : List gpio_entry) (m : Nat),
      k.gpio_table = pre.map some ++ List.replicate m none → pre.length + m = MAX_GPIO →
      ids.length ≤ m → (∀ id ∈ ids, id ∉ pre.map (fun e => e.bcm_num)) → ids.Nodup →
      ∃ new : List gpio_entry, new.map (fun e => e.bcm_num) = ids ∧
        (export_seq G k reqs).1 = reqs.map (fun r => Except.ok r.2) ∧
        (export_seq G k reqs).2.gpio_table =
          (pre ++ new).map some ++ List.replicate (m - ids.length) none := by
  induction hreq with
  | nil =>
    intro k pre m hk _ _ _ _
    exact ⟨[], rfl, rfl, by simpa [export_seq] using hk⟩
  | @cons r id reqs ids hr _ ih =>
    intro k pre m hk hlen hm hnew hnd
    obtain ⟨hparse, hz, ⟨dev, hdev⟩, hdesc⟩ := hr
    obtain ⟨addr, hz⟩ := Option.isSome_iff_exists.1 hz
    obtain ⟨desc, hd⟩ := Option.isSome_iff_exists.1 (hdesc k.hw)
    have hm1 : 0 < m := by simp at hm; omega
    obtain ⟨m2, rfl⟩ : ∃ m2, m = m2 + 1 := ⟨m - 1, by omega⟩
    have hfind : find_gpio_index k.gpio_table id < 0 := by
      rw [hk]; exact filled_find_neg pre _ id (hnew id (by simp))
    have hff : first_free k.gpio_table = pre.length := by
      rw [hk]; exact filled_first_free pre _ hm1 hlen
    have hstep := export_ok G r.1 r.2 k id addr desc dev hparse hz hd hdev hfind
      (by rw [hff]; omega)
    rw [hff, hk, filled_set] at hstep
    have hnd2 := List.nodup_cons.1 hnd
    obtain ⟨new, hn1, hn2, hn3⟩ := ih (export_store G r.1 r.2 k).2
      (pre ++ [{ addr := addr, bcm_num := id, desc := desc, dev := dev, irq_num := 0,
                 irq_enabled := false, async_queue := [] }]) m2
      (by rw [hstep]) (by simp; omega) (by simp at hm; omega)
      (by
        intro x hx
        simp only [List.map_append, List.map_cons, List.map_nil, List.mem_append,
          List.mem_singleton, not_or]
        refine ⟨hnew x (List.mem_cons_of_mem _ hx), ?_⟩
        rintro rfl
        exact hnd2.1 hx)
      hnd2.2
    refine ⟨{ addr := addr, bcm_num := id, desc := desc, dev := dev, irq_num := 0,
              irq_enabled := false, async_queue := [] } :: new, ?_, ?_, ?_⟩
    · simp [hn1]
    · simp only [export_seq, List.map_cons, hn2]
      rw [hstep]
    · simp only [export_seq, hn3]
      simp


/-- C6 (duplicate registration is rejected). For every state of the registry
whose table satisfies its invariant (ten slots, no line number twice) and
every line number `id`: when an `export_store` of `id` succeeds, an
`export_store` of `id` right after it returns `-EEXIST` and changes nothing;
when an `unexport_store` of `id` succeeds, an `unexport_store` of `id` right
after it returns `-ENOENT` and changes nothing. -/
theorem duplicate_rejected {HW : Type} (G : GpioLib HW) (k : Kernel HW)
    (hwf : table_wf k.gpio_table) (id : Int) :
    (∀ (env1 env2 : ExportEnv) (c1 c2 c : Nat),
      env1.kstrtoint = some id → env2.kstrtoint = some id →
      (export_store G env1 c1 k).1 = .ok c →
      export_store G env2 c2 (export_store G env1 c1 k).2 =
        (.error (- EEXIST), (export_store G env1 c1 k).2)) ∧
    (∀ (c1 c2 c : Nat),
      (unexport_store (some id) c1 k).1 = .ok c →
      unexport_store (some id) c2 (unexport_store (some id) c1 k).2 =
        (.error (- ENOENT), (unexport_store (some id) c1 k).2)) := by
  obtain ⟨hl, hd⟩ := hwf
  constructor
  · intro env1 env2 c1 c2 c he1 he2 hok
    obtain ⟨bcm, addr, desc, dev, hk1, _, _, _, _, hfree, _, hk⟩ :=
      export_ok_inv G env1 c1 k c hok
    have hb : bcm = id := by
      rw [he1] at hk1; exact (Option.some.inj hk1).symm
    subst hb
    rw [hk]
    have hff : first_free k.gpio_table < k.gpio_table.length := by rw [hl]; exact hfree
    have hfound : find_gpio_index (k.gpio_table.set (first_free k.gpio_table) (some
          { addr := addr, bcm_num := bcm, desc := desc, dev := dev, irq_num := 0,
            irq_enabled := false, async_queue := [] })) bcm ≥ 0 := by
      by_contra hneg
      have hneg2 := (find_gpio_index_neg _ _).1 (not_le.1 hneg) (first_free k.gpio_table) hfree
      rw [← Bool.not_eq_true, slot_has_iff] at hneg2
      exact hneg2 ⟨_, getD_set_self _ _ _ hff, rfl⟩
    unfold export_store
    simp only [he2, hfound, if_true]
  · intro c1 c2 c hok
    obtain ⟨bcm, i, hp, hi, _, hs, _, hk⟩ := unexport_ok_inv (some id) c1 k c hok
    have hb : bcm = id := (Option.some.inj hp).symm
    subst hb
    rw [hk]
    have hil : i < k.gpio_table.length := by rw [hl]; exact hi
    obtain ⟨e1, hget1, hbcm1⟩ := (slot_has_iff _ _ _).1 hs
    have hgone : find_gpio_index (k.gpio_table.set i none) bcm < 0 := by
      rw [find_gpio_index_neg]
      intro j hj
      rw [← Bool.not_eq_true, slot_has_iff]
      rintro ⟨e2, hget2, hbcm2⟩
      by_cases hji : j = i
      · rw [hji, getD_set_self _ _ _ hil] at hget2; cases hget2
      · rw [getD_set_ne _ _ _ _ (Ne.symm hji)] at hget2
        exact hji (hd j i e2 e1 hget2 hget1 (by rw [hbcm1, hbcm2]))
    unfold unexport_store
    simp only [hgone, if_true]

/-- Line 17 exported and unexported twice on the freshly loaded module. -/
theorem duplicate_rejected_witness :
    table_wf (init_kernel idle_lines).gpio_table ∧
    (export_store simple_lib ⟨some 17, some 4096, .ok 1⟩ 3
      (export_store simple_lib ⟨some 17, some 4096, .ok 1⟩ 3
        (init_kernel idle_lines)).2).1 = .error (- EEXIST) ∧
    (unexport_store (some 17) 3
      (unexport_store (some 17) 3
        (export_store simple_lib ⟨some 17, some 4096, .ok 1⟩ 3
          (init_kernel idle_lines)).2).2).1 = .error (- ENOENT) := by
  refine ⟨table_wf_init, ?_, ?_⟩
  · rw [(duplicate_rejected simple_lib (init_kernel idle_lines)
      table_wf_init 17).1 ⟨some 17, some 4096, .ok 1⟩ ⟨some 17, some 4096, .ok 1⟩ 3 3 3 rfl rfl rfl]
  · rw [(duplicate_rejected simple_lib
      (export_store simple_lib ⟨some 17, some 4096, .ok 1⟩ 3
          (init_kernel idle_lines)).2
      (table_wf_export _ _ _ _ table_wf_init) 17).2 3 3 3 rfl]


/-- In a list without duplicates an element has one index only. -/
theorem nodup_index {ids : List Int} (hnd : ids.Nodup) {i j : Nat} {x : Int}
    (hi : ids[i]? = some x) (hj : ids[j]? = some x) : i = j := by
  obtain ⟨hil, hie⟩ := List.getElem?_eq_some.1 hi
  obtain ⟨hjl, hje⟩ := List.getElem?_eq_some.1 hj
  exact (@List.Nodup.getElem_inj_iff _ _ hnd i hil j hjl).1 (by rw [hie, hje])

/-- The state of a full table: what the driver does for one more export, and
for an export after one unexport. -/
theorem full_table {HW : Type} (G : GpioLib HW) (K : Kernel HW) (E : List gpio_entry)
    (ids : List Int) (hE : E.map (fun e => e.bcm_num) = ids) (hlen : ids.length = MAX_GPIO)
    (hnd : ids.Nodup) (hK : K.gpio_table = E.map some ++ List.replicate 0 none) :
    (∀ (env : ExportEnv) (count : Nat) (id : Int), env.kstrtoint = some id → id ∉ ids →
      export_store G env count K = (.error (- ENOMEM), K)) ∧
    (∀ (j : Nat) (idj : Int) (c1 : Nat), ids[j]? = some idj →
      (unexport_store (some idj) c1 K).1 = .ok c1 ∧
      (unexport_store (some idj) c1 K).2.gpio_table.getD j none = none ∧
      ∀ (env : ExportEnv) (count : Nat) (idn : Int), env_succeeds G env idn →
        (idn ∉ ids ∨ idn = idj) →
        (export_store G env count (unexport_store (some idj) c1 K).2).1 = .ok count ∧
        ∃ e, (export_store G env count (unexport_store (some idj) c1 K).2).2.gpio_table.getD j none
            = some e ∧ e.bcm_num = idn) := by
  have hElen : E.length = MAX_GPIO := by rw [← hlen, ← hE, List.length_map]
  have hEget : ∀ (i : Nat) (x : Int), ids[i]? = some x → ∃ e : gpio_entry, E[i]? = some e ∧ e.bcm_num = x := by
    intro i x hx
    rw [← hE, List.getElem?_map] at hx
    cases he : E[i]? with
    | none => rw [he] at hx; cases hx
    | some e => rw [he] at hx; exact ⟨e, rfl, Option.some.inj hx⟩
  have hEids : ∀ (i : Nat) (e : gpio_entry), E[i]? = some e → ids[i]? = some e.bcm_num := by
    intro i e he
    rw [← hE, List.getElem?_map, he]; rfl
  constructor
  · intro env count id hparse hid
    have hfind : ¬ find_gpio_index K.gpio_table id ≥ 0 := by
      rw [hK]
      exact not_le.2 (filled_find_neg E 0 id (by rw [hE]; exact hid))
    have hfull : first_free K.gpio_table = MAX_GPIO := by
      rcases first_free_cases K.gpio_table with ⟨h, _⟩ | ⟨h1, h2⟩
      · exact h
      · exfalso
        rw [hK] at h1 h2
        rw [filled_getD, List.getElem?_eq_getElem (by omega)] at h2
        cases h2
    unfold export_store
    simp only [hparse, hfind, hfull, if_true, if_false]
  · intro j idj c1 hj
    have hj10 : j < MAX_GPIO := by
      rw [← hlen]; exact (List.getElem?_eq_some.1 hj).1
    obtain ⟨ej, hej, hejb⟩ := hEget j idj hj
    have hfind : find_gpio_index K.gpio_table idj = (j : Int) := by
      apply find_gpio_index_first _ _ _ hj10
      · rw [slot_has_iff, hK, filled_getD]; exact ⟨ej, hej, hejb⟩
      · intro i hi
        rw [← Bool.not_eq_true, slot_has_iff, hK, filled_getD]
        rintro ⟨e, he, hb⟩
        have := nodup_index hnd (hb ▸ hEids i e he) hj
        omega
    have hun : unexport_store (some idj) c1 K =
        (.ok c1, { K with devices := K.devices.filter (fun d => d.1 != j),
                          gpio_table := K.gpio_table.set j none }) := by
      unfold unexport_store
      have hn : ¬ ((j : Int) < 0) := by omega
      simp only [hfind, hn, if_false, Int.toNat_ofNat]
    have hjl : j < K.gpio_table.length := by
      rw [hK]; simp; omega
    rw [hun]
    refine ⟨rfl, getD_set_self _ _ _ hjl, ?_⟩
    intro env count idn henv hidn
    obtain ⟨hparse, hz, ⟨dev, hdev⟩, hdesc⟩ := henv
    obtain ⟨addr, hz⟩ := Option.isSome_iff_exists.1 hz
    obtain ⟨desc, hd⟩ := Option.isSome_iff_exists.1 (hdesc K.hw)
    have hfind2 : find_gpio_index (K.gpio_table.set j none) idn < 0 := by
      rw [find_gpio_index_neg]
      intro i _
      rw [← Bool.not_eq_true, slot_has_iff]
      rintro ⟨e, he, hb⟩
      by_cases hij : i = j
      · rw [hij, getD_set_self _ _ _ hjl] at he; cases he
      · rw [getD_set_ne _ _ _ _ (Ne.symm hij), hK, filled_getD] at he
        have hi := hEids i e he
        rw [hb] at hi
        rcases hidn with h | h
        · exact h (List.getElem?_mem hi)
        · rw [h] at hi
          exact hij (nodup_index hnd hi hj)
    have hff : first_free (K.gpio_table.set j none) = j := by
      apply first_free_first _ _ hj10
      · rw [getD_set_self _ _ _ hjl]; rfl
      · intro i hi
        rw [getD_set_ne _ _ _ _ (by omega), hK, filled_getD,
          List.getElem?_eq_getElem (by omega)]
        rfl
    have hstep := export_ok G env count
      { K with devices := K.devices.filter (fun d => d.1 != j),
               gpio_table := K.gpio_table.set j none }
      idn addr desc dev hparse hz hd hdev hfind2 (by rw [hff]; exact hj10)
    rw [hstep]
    refine ⟨rfl, { addr := addr, bcm_num := idn, desc := desc, dev := dev, irq_num := 0,
                   irq_enabled := false, async_queue := [] }, ?_, rfl⟩
    simp only [hff]
    exact getD_set_self _ _ _ (by simpa using hjl)


/-- C7 (capacity and slot reuse). On a freshly loaded module, let ten export
requests carry ten pairwise distinct line numbers `ids`, each in an environment
where parsing, allocation, gpiolib and device creation succeed. Then every one
of the ten `export_store` calls returns its `count`; an `export_store` of any
further number, not among the ten, returns `-ENOMEM` (capacity exceeded) and
changes nothing; and for the number `idj` held in slot `j`, `unexport_store`
succeeds and empties slot `j`, after which an export of a new number (one not
among the ten, or `idj` again) succeeds and puts its entry into slot `j`. -/
theorem capacity_and_reuse {HW : Type} (G : GpioLib HW) (hw : HW)
    (reqs : List (ExportEnv × Nat)) (ids : List Int)
    (hlen : ids.length = MAX_GPIO) (hnd : ids.Nodup)
    (hreq : List.Forall₂ (fun r id => env_succeeds G r.1 id) reqs ids) :
    (export_seq G (init_kernel hw) reqs).1 = reqs.map (fun r => Except.ok r.2) ∧
    (∀ (env : ExportEnv) (count : Nat) (id : Int), env.kstrtoint = some id → id ∉ ids →
      export_store G env count (export_seq G (init_kernel hw) reqs).2 =
        (.error (- ENOMEM), (export_seq G (init_kernel hw) reqs).2)) ∧
    (∀ (j : Nat) (idj : Int) (c1 : Nat), ids[j]? = some idj →
      (unexport_store (some idj) c1 (export_seq G (init_kernel hw) reqs).2).1 = .ok c1 ∧
      (unexport_store (some idj) c1
        (export_seq G (init_kernel hw) reqs).2).2.gpio_table.getD j none = none ∧
      ∀ (env : ExportEnv) (count : Nat) (idn : Int), env_succeeds G env idn →
        (idn ∉ ids ∨ idn = idj) →
        (export_store G env count
          (unexport_store (some idj) c1 (export_seq G (init_kernel hw) reqs).2).2).1
            = .ok count ∧
        ∃ e, (export_store G env count
          (unexport_store (some idj) c1
            (export_seq G (init_kernel hw) reqs).2).2).2.gpio_table.getD j none
            = some e ∧ e.bcm_num = idn) := by
  obtain ⟨E, hE, h1, h2⟩ := export_seq_fill G reqs ids hreq (init_kernel hw) [] MAX_GPIO
    (by simp [init_kernel, init_table]) (by simp) (by omega) (by simp) hnd
  rw [hlen, Nat.sub_self, List.nil_append] at h2
  exact ⟨h1, full_table G _ E ids hE hlen hnd h2⟩

/-- Lines 0 to 9 exported on idle hardware; line 10 is then refused. -/
theorem capacity_and_reuse_witness :
    ([0, 1, 2, 3, 4, 5, 6, 7, 8, 9] : List Int).Nodup ∧
    (export_store simple_lib ⟨some 10, some 110, .ok 10⟩ 3
      (export_seq simple_lib (init_kernel idle_lines)
        [(⟨some 0, some 100, .ok 0⟩, 2), (⟨some 1, some 101, .ok 1⟩, 2),
         (⟨some 2, some 102, .ok 2⟩, 2), (⟨some 3, some 103, .ok 3⟩, 2),
         (⟨some 4, some 104, .ok 4⟩, 2), (⟨some 5, some 105, .ok 5⟩, 2),
         (⟨some 6, some 106, .ok 6⟩, 2), (⟨some 7, some 107, .ok 7⟩, 2),
         (⟨some 8, some 108, .ok 8⟩, 2), (⟨some 9, some 109, .ok 9⟩, 2)]).2).1
      = .error (- ENOMEM) := by
  have hnd : ([0, 1, 2, 3, 4, 5, 6, 7, 8, 9] : List Int).Nodup := by decide
  have hs : ∀ (id : Int) (a d : Nat), 0 ≤ id → id < 54 →
      env_succeeds simple_lib ⟨some id, some a, .ok d⟩ id := by
    intro id a d h0 h1
    refine ⟨rfl, rfl, ⟨d, rfl⟩, fun hw => ?_⟩
    have : GPIOCHIP_BASE ≤ GPIOCHIP_BASE + id ∧ GPIOCHIP_BASE + id < GPIOCHIP_BASE + 54 := by
      constructor <;> omega
    simp [simple_lib, this]
  refine ⟨hnd, ?_⟩
  rw [(capacity_and_reuse simple_lib idle_lines
    [(⟨some 0, some 100, .ok 0⟩, 2), (⟨some 1, some 101, .ok 1⟩, 2),
     (⟨some 2, some 102, .ok 2⟩, 2), (⟨some 3, some 103, .ok 3⟩, 2),
     (⟨some 4, some 104, .ok 4⟩, 2), (⟨some 5, some 105, .ok 5⟩, 2),
     (⟨some 6, some 106, .ok 6⟩, 2), (⟨some 7, some 107, .ok 7⟩, 2),
     (⟨some 8, some 108, .ok 8⟩, 2), (⟨some 9, some 109, .ok 9⟩, 2)]
    [0, 1, 2, 3, 4, 5, 6, 7, 8, 9] rfl hnd
    (.cons (hs 0 _ _ (by decide) (by decide)) (.cons (hs 1 _ _ (by decide) (by decide))
     (.cons (hs 2 _ _ (by decide) (by decide)) (.cons (hs 3 _ _ (by decide) (by decide))
     (.cons (hs 4 _ _ (by decide) (by decide)) (.cons (hs 5 _ _ (by decide) (by decide))
     (.cons (hs 6 _ _ (by decide) (by decide)) (.cons (hs 7 _ _ (by decide) (by decide))
     (.cons (hs 8 _ _ (by decide) (by decide)) (.cons (hs 9 _ _ (by decide) (by decide))
     .nil))))))))))).2.1 ⟨some 10, some 110, .ok 10⟩ 3 10 rfl (by decide)]


/-- C8, evaluated on the code. Line 17 is exported and not touched otherwise:
its direction is INPUT, and the sysfs attribute `value_store` refuses a write
with `-EPERM`. A write of the text 1 or 0 through the device file, however,
returns 1, the number of bytes written, and not `-EPERM`: `gpio_fops_write`
never looks at the direction, whatever gpiolib and whatever entry it is given.
The rest of the claim holds on this hardware: the level read stays 0 on the
input line, and after a write of the text out, a write of 1 returns 1 and a
read returns the character 1. -/
theorem endpoint_write_ignores_direction :
    (∀ (HW : Type) (G : GpioLib HW) (entry : gpio_entry) (hw : HW),
      (gpio_fops_write G entry [49] true hw).1 = 1 ∧
      (gpio_fops_write G entry [48] true hw).1 = 1) ∧
    (∃ e, exported_17.gpio_table.getD 0 none = some e ∧ e.bcm_num = 17 ∧
      simple_lib.gpiod_get_direction exported_17.hw e.desc = 1 ∧
      (value_store simple_lib e [49, 10] 2 exported_17.hw).1 = - EPERM ∧
      (gpio_fops_write simple_lib e [49] true exported_17.hw).1 = 1 ∧
      (gpio_fops_write simple_lib e [49] true exported_17.hw).1 ≠ - EPERM ∧
      gpio_fops_read simple_lib e true (gpio_fops_write simple_lib e [49] true exported_17.hw).2
        = (1, some 48) ∧
      (gpio_fops_write simple_lib e [111, 117, 116] true exported_17.hw).1 = 3 ∧
      (gpio_fops_write simple_lib e [49] true
        (gpio_fops_write simple_lib e [111, 117, 116] true exported_17.hw).2).1 = 1 ∧
      gpio_fops_read simple_lib e true
        (gpio_fops_write simple_lib e [49] true
          (gpio_fops_write simple_lib e [111, 117, 116] true exported_17.hw).2).2
        = (1, some 49)) := by
  constructor
  · intro HW G entry hw
    constructor
    · have h : sysfs_streq [49, 0] [49, 0] = true := by decide
      simp [gpio_fops_write, h]
    · have h1 : sysfs_streq [48, 0] [49, 0] = false := by decide
      have h2 : sysfs_streq [48, 0] [48, 0] = true := by decide
      simp [gpio_fops_write, h1, h2]
  · refine ⟨{ addr := 4096, bcm_num := 17, desc := 529, dev := 0, irq_num := 0,
              irq_enabled := false, async_queue := [] }, ?_, ?_, ?_, ?_, ?_, ?_, ?_, ?_, ?_, ?_⟩ <;>
      decide


/-- C10, evaluated on the code. Line 19 is exported, opened and its interrupt
enabled: the entry at address 4096 sits in slot 0 with `irq_enabled` set, and
`request_irq` has registered interrupt 531 with that entry as `dev_id`. Then
`unexport_store` of 19 succeeds and empties slot 0, but the registration is
still there, and its `dev_id` now points to no entry: a later interrupt would
run `gpio_irq_handler` on freed memory. `unexport_store` never changes the
registrations, in any state; `gpio_fops_release`, in the same state, does
call `free_irq` and leaves none. -/
theorem unexport_leaves_irq :
    (∀ (HW : Type) (parsed : Option Int) (count : Nat) (k : Kernel HW),
      (unexport_store parsed count k).2.irq_actions = k.irq_actions) ∧
    (armed_19.gpio_table.getD 0 none =
      some { addr := 4096, bcm_num := 19, desc := 531, dev := 0, irq_num := 531,
             irq_enabled := true, async_queue := [] } ∧
     armed_19.irq_actions = [(531, 4096)] ∧
     gpio_irq_handler armed_19 4096 = some [] ∧
     (unexport_store (some 19) 3 armed_19).1 = .ok 3 ∧
     (unexport_store (some 19) 3 armed_19).2.gpio_table = init_table ∧
     (unexport_store (some 19) 3 armed_19).2.irq_actions = [(531, 4096)] ∧
     entry_at (unexport_store (some 19) 3 armed_19).2.gpio_table 4096 = none ∧
     gpio_irq_handler (unexport_store (some 19) 3 armed_19).2 4096 = none ∧
     (gpio_fops_release 4096 7 armed_19).map (fun r => r.2.irq_actions) = some []) := by
  constructor
  · intro HW parsed count k
    unfold unexport_store
    cases parsed with
    | none => rfl
    | some bcm =>
      simp only
      split <;> rfl
  · refine ⟨?_, ?_, ?_, ?_, ?_, ?_, ?_, ?_, ?_⟩ <;> first | decide | rfl

end Driver
